import Mathlib

/-!
Verification development for the TOON encoder/decoder core
(`crates/toonify-core`): a shallow embedding of `quoting.rs`,
`encoder.rs` and `decoder.rs` over `List Char` strings, together with
theorems about the embedded functions.

Strings are modelled as `List Char`; Rust byte indices become character
indices (every index the code computes is a character boundary, so the
sliced strings agree).  `serde_json::Map` (built with `preserve_order`,
as the encoder tests require) is modelled as an insertion-ordered
association list.  `serde_json::Number` is modelled exactly for the
integer variants and as the decimal mantissa/exponent of the rendered
float for the float variant.
-/

namespace Toonify

abbrev Chars := List Char

/-- Unicode `White_Space` code points, the set used by Rust's `str::trim`. -/
def rustWhitespace (c : Char) : Bool :=
  let n := c.toNat
  (0x9 ≤ n && n ≤ 0xD) || n == 0x20 || n == 0x85 || n == 0xA0 || n == 0x1680 ||
  (0x2000 ≤ n && n ≤ 0x200A) || n == 0x2028 || n == 0x2029 || n == 0x202F ||
  n == 0x205F || n == 0x3000

def trimStartBy (p : Char → Bool) : Chars → Chars
  | [] => []
  | c :: cs => if p c then trimStartBy p cs else c :: cs

/-- Rust `str::trim_start`. -/
def rustTrimStart (s : Chars) : Chars := trimStartBy rustWhitespace s

/-- Rust `str::trim_end`. -/
def rustTrimEnd (s : Chars) : Chars := (trimStartBy rustWhitespace s.reverse).reverse

/-- Rust `str::trim`. -/
def rustTrim (s : Chars) : Chars := rustTrimEnd (rustTrimStart s)

/-- First index of a character (Rust `str::find` for a `char` pattern). -/
def findIdxChar (c : Char) : Chars → Option Nat
  | [] => none
  | x :: xs => if x = c then some 0 else (findIdxChar c xs).map (· + 1)

/-- Last index of a character (Rust `str::rfind` for a `char` pattern). -/
def rfindIdxChar (c : Char) (s : Chars) : Option Nat :=
  match findIdxChar c s.reverse with
  | none => none
  | some i => some (s.length - 1 - i)

/-- Rust `str::split` on a single character. -/
def splitOnChar (sep : Char) : Chars → List Chars
  | [] => [[]]
  | c :: cs =>
    if c = sep then [] :: splitOnChar sep cs
    else
      match splitOnChar sep cs with
      | s :: rest => (c :: s) :: rest
      | [] => [[c]]

/-- Decimal digits of a natural number, most significant first.  The
`fuel` argument makes the recursion structural; `natChars` supplies
`n + 1 ≥` the number of digits, so the `fuel = 0` case is never hit. -/
def natDigitsAux : Nat → Nat → Chars → Chars
  | 0, _, acc => acc
  | fuel + 1, n, acc =>
    if n < 10 then Char.ofNat (48 + n) :: acc
    else natDigitsAux fuel (n / 10) (Char.ofNat (48 + n % 10) :: acc)

def natChars (n : Nat) : Chars := natDigitsAux (n + 1) n []

def intChars (n : Int) : Chars :=
  if n < 0 then '-' :: natChars n.natAbs else natChars n.natAbs

def digitsToNat (ds : Chars) : Nat :=
  ds.foldl (fun a c => a * 10 + (c.toNat - 48)) 0

/-! ## Data model

`serde_json::Value` with the `preserve_order` feature: objects are
insertion-ordered association lists.  `NumJson.i` is an integer stored in
serde's `i64`/`u64` variants; `NumJson.f` (mantissa `m`, exponent `e`,
value `m * 10 ^ e`) is the decimal rendering of serde's finite `f64`
variant. -/

inductive NumJson where
  | i : Int → NumJson
  | f : (m : Int) → (e : Int) → NumJson
deriving DecidableEq

inductive Value where
  | null : Value
  | bool : Bool → Value
  | num : NumJson → Value
  | str : Chars → Value
  | arr : List Value → Value
  | obj : List (Chars × Value) → Value

/-- `is_primitive` from `encoder.rs`. -/
def Value.isPrimitive : Value → Bool
  | .null | .bool _ | .num _ | .str _ => true
  | _ => false

def Value.isObj : Value → Bool
  | .obj _ => true
  | _ => false

/-- `serde_json::Map::get`: the map has unique keys, lookup by key. -/
def lookupAssoc (entries : List (Chars × Value)) (k : Chars) : Option Value :=
  match entries with
  | [] => none
  | (k', v) :: rest => if k' = k then some v else lookupAssoc rest k

/-- `serde_json::Map::insert` (`preserve_order`): replace in place, else append. -/
def mapInsert (entries : List (Chars × Value)) (k : Chars) (v : Value) :
    List (Chars × Value) :=
  match entries with
  | [] => [(k, v)]
  | (k', v') :: rest =>
    if k' = k then (k', v) :: rest else (k', v') :: mapInsert rest k v

/-! ## Options (`options.rs`) -/

inductive Delimiter where
  | comma | tab | pipe
deriving DecidableEq

def Delimiter.asChar : Delimiter → Char
  | .comma => ','
  | .tab => '\t'
  | .pipe => '|'

def Delimiter.bracketSuffix : Delimiter → Chars
  | .comma => []
  | .tab => ['\t']
  | .pipe => ['|']

def Delimiter.separator : Delimiter → Chars
  | .comma => [',']
  | .tab => ['\t']
  | .pipe => ['|']

inductive KeyFoldingMode where
  | off
  | safe (flattenDepth : Option Nat)
deriving DecidableEq

structure EncoderOptions where
  indent : Nat
  documentDelimiter : Delimiter
  keyFolding : KeyFoldingMode
deriving DecidableEq

def encoderDefaults : EncoderOptions := ⟨2, .comma, .off⟩

inductive PathExpansionMode where
  | off | safe
deriving DecidableEq

structure DecoderOptions where
  indent : Nat
  strict : Bool
  expandPaths : PathExpansionMode
deriving DecidableEq

def decoderDefaults : DecoderOptions := ⟨2, true, .off⟩

/-! ## Quoting (`quoting.rs`) -/

/-- `is_identifier_key`. -/
def isIdentifierKey : Chars → Bool
  | [] => false
  | c :: cs =>
    (c.isAlpha || c = '_') && cs.all (fun d => d.isAlphanum || d = '_' || d = '.')

/-- `is_identifier_segment`. -/
def isIdentifierSegment : Chars → Bool
  | [] => false
  | c :: cs => (c.isAlpha || c = '_') && cs.all (fun d => d.isAlphanum || d = '_')

/-- The escape table `\\ \" \n \r \t` of `escape`. -/
def escapeChar (c : Char) : Chars :=
  if c = '\\' then ['\\', '\\']
  else if c = '"' then ['\\', '"']
  else if c = '\n' then ['\\', 'n']
  else if c = '\r' then ['\\', 'r']
  else if c = '\t' then ['\\', 't']
  else [c]

def escapeChars (s : Chars) : Chars := s.flatMap escapeChar

def quoteWrap (s : Chars) : Chars := '"' :: (escapeChars s ++ ['"'])

/-! JSON number grammar, as accepted by `serde_json` (the parser behind
`serde_json::from_str::<Value>` on numeric input and
`serde_json::Number::from_str`): optional `-`, integer part `0` or a
nonzero digit followed by digits, optional fraction, optional exponent.
A literal whose magnitude rounds to infinity in `f64` is rejected by
serde ("number out of range"); that bound is `2^1024 - 2^970`. -/

/-- Consume a maximal run of ASCII digits. -/
def takeDigits : Chars → Chars × Chars
  | [] => ([], [])
  | c :: cs =>
    if c.isDigit then
      let (d, r) := takeDigits cs
      (c :: d, r)
    else ([], c :: cs)

def jsonIntPart : Chars → Option Chars
  | [] => none
  | c :: rest =>
    if c = '0' then some rest
    else if c.isDigit then some (takeDigits rest).2
    else none

def jsonFracPart : Chars → Option Chars
  | '.' :: rest =>
    let (d, r) := takeDigits rest
    if d.isEmpty then none else some r
  | rest => some rest

def jsonExpPart : Chars → Option Chars
  | [] => some []
  | c :: rest =>
    if c = 'e' || c = 'E' then
      let rest2 := match rest with
        | s :: t => if s = '+' || s = '-' then t else s :: t
        | [] => []
      let (d, r) := takeDigits rest2
      if d.isEmpty then none else some r
    else some (c :: rest)

/-- Full-match test for the JSON number grammar. -/
def jsonNumberGrammar (s : Chars) : Bool :=
  let s1 := match s with
    | '-' :: t => t
    | t => t
  match jsonIntPart s1 with
  | none => false
  | some r1 =>
    match jsonFracPart r1 with
    | none => false
    | some r2 =>
      match jsonExpPart r2 with
      | none => false
      | some r3 => r3.isEmpty

/-- Signed decimal mantissa and power-of-ten exponent of a literal that
matches the JSON number grammar. -/
def decimalParts (s : Chars) : Int × Int :=
  let (neg, s1) : Bool × Chars := match s with
    | '-' :: t => (true, t)
    | t => (false, t)
  let (ip, r1) := takeDigits s1
  let (fp, r2) : Chars × Chars := match r1 with
    | '.' :: t => takeDigits t
    | t => ([], t)
  let ev : Int := match r2 with
    | _ :: t =>
      let (sgn, t2) : Int × Chars := match t with
        | '+' :: u => (1, u)
        | '-' :: u => (-1, u)
        | u => (1, u)
      sgn * ((digitsToNat (takeDigits t2).1 : Int))
    | [] => 0
  let m : Nat := digitsToNat (ip ++ fp)
  let mi : Int := if neg then -(m : Int) else (m : Int)
  (mi, ev - (fp.length : Int))

/-- Smallest decimal magnitude that `f64` parsing rounds to infinity. -/
def overflowThreshold : Nat := 2 ^ 1024 - 2 ^ 970

def decimalFitsDouble (m : Int) (e : Int) : Bool :=
  if 0 ≤ e then m.natAbs * 10 ^ e.toNat < overflowThreshold
  else m.natAbs < overflowThreshold * 10 ^ (-e).toNat

/-- The whitespace serde's JSON parser skips around a top-level value. -/
def jsonWsChar (c : Char) : Bool :=
  c = ' ' || c = '\t' || c = '\n' || c = '\r'

def jsonTrim (s : Chars) : Chars :=
  ((trimStartBy jsonWsChar ((trimStartBy jsonWsChar s).reverse)).reverse)

/-- `serde_json::from_str::<Value>(s)` succeeds and yields a `Number`
(equivalently `Number::from_str` succeeds): grammar match within the
finite-double bound, modulo surrounding JSON whitespace. -/
def serdeNumberOk (s : Chars) : Bool :=
  let t := jsonTrim s
  jsonNumberGrammar t &&
    (let (m, e) := decimalParts t
     decimalFitsDouble m e)

/-- `is_numeric_like` from `quoting.rs`. -/
def isNumericLike (value : Chars) : Bool :=
  serdeNumberOk value ||
  (decide (value.length > 1) && value.head? == some '0' && value.all Char.isDigit)

/-- `needs_quotes` from `quoting.rs`. -/
def needsQuotes (value : Chars) (delimiter : Option Char) : Bool :=
  (value.isEmpty
    || rustTrim value ≠ value
    || value = "true".data
    || value = "false".data
    || value = "null".data
    || isNumericLike value
    || value.any (fun c =>
         c = ':' || c = '"' || c = '\\' || c = '[' || c = ']' || c = '\x7b' || c = '\x7d')
    || value.any (fun c => c = '\n' || c = '\r' || c = '\t')
    || value.head? = some '-')
  ||
  (match delimiter with
   | some d => value.contains d
   | none => false)

/-- `encode_string` from `quoting.rs`. -/
def encodeString (value : Chars) (delimiter : Option Delimiter) : Chars :=
  if needsQuotes value (delimiter.map Delimiter.asChar) then quoteWrap value
  else value

/-- `encode_key` from `quoting.rs`. -/
def encodeKey (key : Chars) : Chars :=
  if isIdentifierKey key then key else quoteWrap key


/-! ## Number canonicalization (`encoder.rs::canonicalize_number`)

Integer variants print via `i64`/`u64` `Display`.  For the float variant
the code prints the number with `ryu` (never `"-0"`; `-0.0` prints as
`"-0.0"`, so the `raw == "-0"` branch is dead), parses that string with
`BigDecimal::from_str` (which cannot fail on a `ryu` rendering, so the
`NumberNormalization` branch is dead), calls `normalized()` (strip
trailing zero factors from the mantissa; a zero value prints as `0`),
and prints with `BigDecimal`'s plain, exponent-free `Display`.  The
embedding works on the decimal `(m, e)` directly; the composition of
those library calls is exactly `stripTens` followed by `plainDecimal`. -/

/-- Remove factors of ten: returns `(n / 10^k, k)` with the first
component not divisible by ten (for `n = 0` returns `(0, 0)`).  The fuel
makes the recursion structural; `stripTens` supplies `n + 1`, which
covers every chain of divisions. -/
def stripTensAux : Nat → Nat → Nat × Nat
  | 0, n => (n, 0)
  | fuel + 1, n =>
    if n % 10 = 0 ∧ n ≠ 0 then
      let (m, k) := stripTensAux fuel (n / 10)
      (m, k + 1)
    else (n, 0)

def stripTens (n : Nat) : Nat × Nat := stripTensAux (n + 1) n

/-- `BigDecimal` plain `Display` of `m * 10 ^ e` for `m ≠ 0`. -/
def plainDecimal (m : Int) (e : Int) : Chars :=
  let sign : Chars := if m < 0 then ['-'] else []
  let ds := natChars m.natAbs
  if 0 ≤ e then sign ++ ds ++ List.replicate e.toNat '0'
  else
    let k := (-e).toNat
    if ds.length ≤ k then
      sign ++ ('0' :: '.' :: (List.replicate (k - ds.length) '0' ++ ds))
    else
      sign ++ (ds.take (ds.length - k) ++ '.' :: ds.drop (ds.length - k))

/-- `canonicalize_number` from `encoder.rs`. -/
def canonicalizeNumber : NumJson → Chars
  | .i n => intChars n
  | .f m e =>
    if m = 0 then ['0']
    else
      let (m', k) := stripTens m.natAbs
      plainDecimal (if m < 0 then -(m' : Int) else (m' : Int)) (e + (k : Int))

/-! ## Key folding (`encoder.rs::fold_key`) -/

structure FoldOut where
  key : Chars
  value : Value

/-- The `while segments.len() < max_segments` descent inside `fold_key`.
The fuel is exactly `maxSegs - segs.length`: it reaches `0` precisely when
the loop guard `segments.len() < max_segments` fails, and each iteration
grows `segs` by one, so the translation is exact. -/
def foldChainAux : Nat → List Chars → Value → List Chars × Value
  | 0, segs, v => (segs, v)
  | fuel + 1, segs, v =>
    match v with
    | .obj [(k2, v2)] =>
      if isIdentifierSegment k2 then foldChainAux fuel (segs ++ [k2]) v2
      else (segs, v)
    | .obj other => (segs, .obj other)
    | other => (segs, other)

def foldChain (maxSegs : Nat) (segs : List Chars) (v : Value) : List Chars × Value :=
  foldChainAux (maxSegs - segs.length) segs v

/-- `fold_key` from `encoder.rs` (`usize::MAX` is `2^64 - 1`). -/
def foldKey (opts : EncoderOptions) (key : Chars) (v : Value)
    (siblings : List (Chars × Value)) : FoldOut :=
  match opts.keyFolding with
  | .off => ⟨key, v⟩
  | .safe flattenDepth =>
    if isIdentifierSegment key then
      let maxSegs := max (flattenDepth.getD (2 ^ 64 - 1)) 1
      match foldChain maxSegs [key] v with
      | (segs, cur) =>
        if segs.length = 1 then ⟨key, v⟩
        else
          let candidate := List.intercalate ['.'] segs
          if (lookupAssoc siblings candidate).isSome && candidate ≠ key then ⟨key, v⟩
          else ⟨candidate, cur⟩
    else ⟨key, v⟩

theorem foldChainAux_value_sizeOf_le (fuel : Nat) (segs : List Chars) (v : Value) :
    sizeOf (foldChainAux fuel segs v).2 ≤ sizeOf v := by
  induction fuel generalizing segs v with
  | zero => simp [foldChainAux]
  | succ fuel ih =>
    rcases v with _ | b | n | s | items | entries
    · simp [foldChainAux]
    · simp [foldChainAux]
    · simp [foldChainAux]
    · simp [foldChainAux]
    · simp [foldChainAux]
    · rcases entries with _ | ⟨⟨k2, v2⟩, rest⟩
      · simp [foldChainAux]
      · rcases rest with _ | ⟨e2, rest2⟩
        · by_cases hid : isIdentifierSegment k2
          · calc sizeOf (foldChainAux (fuel + 1) segs (Value.obj [(k2, v2)])).2
                = sizeOf (foldChainAux fuel (segs ++ [k2]) v2).2 := by
                  simp [foldChainAux, hid]
              _ ≤ sizeOf v2 := ih _ _
              _ ≤ sizeOf (Value.obj [(k2, v2)]) := by simp; omega
          · simp [foldChainAux, hid]
        · simp [foldChainAux]

theorem foldKey_value_sizeOf_le (opts : EncoderOptions) (key : Chars) (v : Value)
    (siblings : List (Chars × Value)) :
    sizeOf (foldKey opts key v siblings).value ≤ sizeOf v := by
  unfold foldKey
  split
  next => simp
  next fd heq =>
    split
    next hid =>
      have h := foldChainAux_value_sizeOf_le
        (max (fd.getD (2 ^ 64 - 1)) 1 - [key].length) [key] v
      rcases hfc : foldChain (max (fd.getD (2 ^ 64 - 1)) 1) [key] v with ⟨segs, cur⟩
      rw [foldChain] at hfc
      rw [hfc] at h
      simp only at h
      simp only [foldChain, hfc]
      split
      next => simp
      next =>
        split
        next => simp
        next => simpa using h
    next => simp

/-! ## Debug rendering (`{:?}` of `serde_json::Value`), used in error texts.

The fuel (one unit per nesting level) makes the recursion structural;
`valueDebug` supplies `2^64`, more levels than any value a real process
holds (the Rust `Debug` recursion would exhaust the stack long before). -/

def valueDebugAux : Nat → Value → Chars
  | 0, _ => []
  | fuel + 1, v =>
    match v with
    | .null => "Null".data
    | .bool b => (if b then "Bool(true)" else "Bool(false)").data
    | .num n => "Number(".data ++ canonicalizeNumber n ++ [')']
    | .str s => "String(\"".data ++ s ++ "\")".data
    | .arr items =>
      "Array ".data ++ '[' ::
        (List.intercalate ", ".data (items.map (valueDebugAux fuel)) ++ [']'])
    | .obj entries =>
      "Object ".data ++ '\x7b' ::
        (List.intercalate ", ".data
          (entries.map (fun e => '"' :: (e.1 ++ "\": ".data ++ valueDebugAux fuel e.2)))
          ++ ['\x7d'])

def valueDebug (v : Value) : Chars := valueDebugAux (2 ^ 64) v

/-! ## Encoder (`encoder.rs`)

The Rust `Encoder` pushes lines into `self.lines`; the embedding returns
the list of pushed lines, errors propagating as `Except.error`.  The
`.expect("field must exist")` panic in `emit_tabular_array` is modelled
as an error (it is proven unreachable in `c6_encoder_never_errors`). -/

inductive ArrayContext where
  | normal (depth : Nat)
  | listFirstField (depth : Nat)

def ArrayContext.headerDepth : ArrayContext → Nat
  | .normal d => d
  | .listFirstField d => d + 1

def ArrayContext.rowDepth (c : ArrayContext) : Nat := c.headerDepth + 1

def ArrayContext.headerPrefixChars : ArrayContext → Chars
  | .normal _ => []
  | .listFirstField _ => "- ".data

def indentChars (opts : EncoderOptions) (depth : Nat) : Chars :=
  List.replicate (depth * opts.indent) ' '

def pushLine (opts : EncoderOptions) (depth : Nat) (content : Chars) : Chars :=
  indentChars opts depth ++ content

/-- `format_header` from `encoder.rs`. -/
def formatHeader (key : Option Chars) (len : Nat) (delim : Delimiter)
    (fields : Option (List Chars)) : Chars :=
  let bracket := '[' :: (natChars len ++ delim.bracketSuffix ++ [']'])
  let body :=
    match fields with
    | some fs =>
      bracket ++ '\x7b' :: (List.intercalate [delim.asChar] (fs.map encodeKey) ++ ['\x7d', ':'])
    | none => bracket ++ [':']
  match key with
  | some k => encodeKey k ++ body
  | none => body

/-- `stringify_primitive` from `encoder.rs`. -/
def stringifyPrimitive (opts : EncoderOptions) (v : Value)
    (delimiter : Option Delimiter) : Except Chars Chars :=
  let d := delimiter.getD opts.documentDelimiter
  match v with
  | .null => .ok "null".data
  | .bool b => .ok ((if b then "true" else "false").data)
  | .num n => .ok (canonicalizeNumber n)
  | .str s => .ok (encodeString s (some d))
  | other => .error ("expected primitive value, found ".data ++ valueDebug other)

/-- `detect_tabular` from `encoder.rs`. -/
def detectTabular (items : List Value) : Option (List Chars) :=
  match items with
  | [] => none
  | first :: rest =>
    match first with
    | .obj firstEntries =>
      if firstEntries.isEmpty then none
      else if firstEntries.all (fun e => e.2.isPrimitive) then
        let fields := firstEntries.map Prod.fst
        if rest.all (fun item =>
            match item with
            | .obj entries =>
              entries.length = fields.length &&
              fields.all (fun f =>
                match lookupAssoc entries f with
                | some v => v.isPrimitive
                | none => false)
            | _ => false)
        then some fields else none
      else none
    | _ => none

/-- `is_array_of_primitive_arrays` from `encoder.rs`. -/
def isArrayOfPrimitiveArrays (items : List Value) : Bool :=
  !items.isEmpty && items.all (fun v =>
    match v with
    | .arr inner => inner.all Value.isPrimitive
    | _ => false)

/-- `emit_inline_array` from `encoder.rs`. -/
def emitInlineArray (opts : EncoderOptions) (key : Option Chars) (items : List Value)
    (delim : Delimiter) (ctx : ArrayContext) : Except Chars (List Chars) := do
  let header := formatHeader key items.length delim none
  let ind := indentChars opts ctx.headerDepth
  let pre := ctx.headerPrefixChars
  if items.isEmpty then .ok [ind ++ pre ++ header]
  else do
    let values ← items.mapM (fun v => stringifyPrimitive opts v (some delim))
    .ok [ind ++ pre ++ header ++ ' ' :: List.intercalate delim.separator values]

/-- `emit_tabular_array` from `encoder.rs`. -/
def emitTabularArray (opts : EncoderOptions) (key : Option Chars) (items : List Value)
    (fields : List Chars) (delim : Delimiter) (ctx : ArrayContext) :
    Except Chars (List Chars) := do
  let header := formatHeader key items.length delim (some fields)
  let headLine := indentChars opts ctx.headerDepth ++ ctx.headerPrefixChars ++ header
  let rowInd := indentChars opts ctx.rowDepth
  let rows ← items.mapM (fun item =>
    match item with
    | .obj entries => do
      let cells ← fields.mapM (fun field =>
        match lookupAssoc entries field with
        | some cell => stringifyPrimitive opts cell (some delim)
        | none => .error "field must exist".data)
      .ok (rowInd ++ List.intercalate delim.separator cells)
    | _ => .error "tabular detection failed due to non-object row".data)
  .ok (headLine :: rows)

/-- `emit_array_of_arrays` from `encoder.rs`. -/
def emitArrayOfArrays (opts : EncoderOptions) (key : Option Chars) (items : List Value)
    (delim : Delimiter) (ctx : ArrayContext) : Except Chars (List Chars) := do
  let header := formatHeader key items.length delim none
  let headLine := indentChars opts ctx.headerDepth ++ ctx.headerPrefixChars ++ header
  let rowInd := indentChars opts ctx.rowDepth
  let rows ← items.mapM (fun inner =>
    match inner with
    | .arr innerItems => do
      let innerHeader := formatHeader none innerItems.length delim none
      if innerItems.isEmpty then .ok (rowInd ++ "- ".data ++ innerHeader)
      else do
        let values ← innerItems.mapM (fun v => stringifyPrimitive opts v (some delim))
        .ok (rowInd ++ "- ".data ++ innerHeader ++ ' ' :: List.intercalate delim.separator values)
    | _ => .error "expected inner array".data)
  .ok (headLine :: rows)

mutual

/-- `encode_object_fields` from `encoder.rs` (iterating tail `remaining` of
the sibling map `siblings`; each step is `fold_key` followed by
`encode_named_value`, here `encodeFoldedField`). -/
def encodeFieldsAux (opts : EncoderOptions) (siblings : List (Chars × Value))
    (remaining : List (Chars × Value)) (depth : Nat) : Except Chars (List Chars) :=
  match remaining with
  | [] => .ok []
  | (key, value) :: rest => do
    let l1 ← encodeFoldedField opts siblings key value depth
    let l2 ← encodeFieldsAux opts siblings rest depth
    .ok (l1 ++ l2)
termination_by 4 * sizeOf remaining
decreasing_by all_goals (simp_wf; try omega)

/-- One loop step of `encode_object_fields`: `fold_key` then
`encode_named_value` on the folded pair. -/
def encodeFoldedField (opts : EncoderOptions) (siblings : List (Chars × Value))
    (key : Chars) (value : Value) (depth : Nat) : Except Chars (List Chars) :=
  match hfr : foldKey opts key value siblings with
  | fr => encodeNamedValue opts fr.key fr.value depth
termination_by 4 * sizeOf value + 3
decreasing_by
  have h := foldKey_value_sizeOf_le opts key value siblings
  simp_wf
  rw [hfr] at h
  omega

/-- `encode_named_value` from `encoder.rs`. -/
def encodeNamedValue (opts : EncoderOptions) (key : Chars) (v : Value) (depth : Nat) :
    Except Chars (List Chars) :=
  match v with
  | .obj entries =>
    if entries.isEmpty then .ok [pushLine opts depth (encodeKey key ++ [':'])]
    else do
      let rest ← encodeFieldsAux opts entries entries (depth + 1)
      .ok (pushLine opts depth (encodeKey key ++ [':']) :: rest)
  | .arr items => encodeArray opts (some key) items (.normal depth)
  | prim => do
    let rendered ← stringifyPrimitive opts prim (some opts.documentDelimiter)
    .ok [pushLine opts depth (encodeKey key ++ ": ".data ++ rendered)]
termination_by 4 * sizeOf v + 1
decreasing_by all_goals (simp_wf; try omega)

/-- `encode_array` from `encoder.rs`: shape dispatch, first match wins. -/
def encodeArray (opts : EncoderOptions) (key : Option Chars) (items : List Value)
    (ctx : ArrayContext) : Except Chars (List Chars) :=
  let delim := opts.documentDelimiter
  if items.all Value.isPrimitive then emitInlineArray opts key items delim ctx
  else
    match detectTabular items with
    | some fields => emitTabularArray opts key items fields delim ctx
    | none =>
      if isArrayOfPrimitiveArrays items then emitArrayOfArrays opts key items delim ctx
      else do
        let header := formatHeader key items.length delim none
        let headLine := indentChars opts ctx.headerDepth ++ ctx.headerPrefixChars ++ header
        let body ← generalListItems opts items ctx.rowDepth
        .ok (headLine :: body)
termination_by 4 * sizeOf items + 2
decreasing_by all_goals (simp_wf; try omega)

/-- The item loop of `emit_general_list` from `encoder.rs`. -/
def generalListItems (opts : EncoderOptions) (items : List Value) (rowDepth : Nat) :
    Except Chars (List Chars) :=
  match items with
  | [] => .ok []
  | item :: rest => do
    let ls ←
      match item with
      | .obj entries => encodeObjectListItem opts entries rowDepth
      | .arr inner => encodeArray opts none inner (.listFirstField (rowDepth - 1))
      | prim => do
        let rendered ← stringifyPrimitive opts prim (some opts.documentDelimiter)
        .ok [indentChars opts rowDepth ++ "- ".data ++ rendered]
    let moreLines ← generalListItems opts rest rowDepth
    .ok (ls ++ moreLines)
termination_by 4 * sizeOf items
decreasing_by all_goals (simp_wf; try omega)

/-- `encode_object_list_item` from `encoder.rs`: the first `(k, v)` pair is
folded and emitted on the `- ` line (`encodeListFirstPair`), the remaining
pairs follow one level deeper. -/
def encodeObjectListItem (opts : EncoderOptions) (entries : List (Chars × Value))
    (depth : Nat) : Except Chars (List Chars) :=
  match entries with
  | [] => .ok [indentChars opts depth ++ ['-']]
  | (firstKey, firstValue) :: rest => do
    let firstLines ← encodeListFirstPair opts entries firstKey firstValue depth
    let restLines ← encodeFieldsAux opts entries rest (depth + 1)
    .ok (firstLines ++ restLines)
termination_by 4 * sizeOf entries + 3
decreasing_by all_goals (simp_wf; try omega)

/-- The first-pair emission inside `encode_object_list_item`. -/
def encodeListFirstPair (opts : EncoderOptions) (siblings : List (Chars × Value))
    (firstKey : Chars) (firstValue : Value) (depth : Nat) : Except Chars (List Chars) :=
  match hfr : foldKey opts firstKey firstValue siblings with
  | ⟨fkey, .obj obj2⟩ =>
    if obj2.isEmpty then
      .ok [indentChars opts depth ++ "- ".data ++ encodeKey fkey ++ [':']]
    else do
      let inner ← encodeFieldsAux opts obj2 obj2 (depth + 2)
      .ok ((indentChars opts depth ++ "- ".data ++ encodeKey fkey ++ [':']) :: inner)
  | ⟨fkey, .arr items2⟩ =>
    encodeArray opts (some fkey) items2 (.listFirstField (depth - 1))
  | ⟨fkey, prim⟩ => do
    let rendered ← stringifyPrimitive opts prim (some opts.documentDelimiter)
    .ok [indentChars opts depth ++ "- ".data ++ encodeKey fkey ++ ": ".data ++ rendered]
termination_by 4 * sizeOf firstValue + 2
decreasing_by
  all_goals (
    have h := foldKey_value_sizeOf_le opts firstKey firstValue siblings
    simp_wf
    rw [hfr] at h
    simp only [FoldOut.mk.sizeOf_spec] at h
    simp at h
    omega)

end

/-- `encode_root` from `encoder.rs`. -/
def encodeRoot (opts : EncoderOptions) (v : Value) : Except Chars (List Chars) :=
  match v with
  | .obj entries =>
    if entries.isEmpty then .ok [] else encodeFieldsAux opts entries entries 0
  | .arr items => encodeArray opts none items (.normal 0)
  | prim => do
    let rendered ← stringifyPrimitive opts prim (some opts.documentDelimiter)
    .ok [rendered]

/-- `encode_value` from `encoder.rs` (lines joined by `"\n"`, no trailing
newline). -/
def encodeValue (v : Value) (opts : EncoderOptions) : Except Chars Chars := do
  let ls ← encodeRoot opts v
  .ok (List.intercalate ['\n'] ls)

/-! ## Decoder (`decoder.rs`)

The Rust decoder is a cursor over tokenized lines; the embedding passes
the remaining-line suffix explicitly and returns the unconsumed suffix.
The cursor loops terminate because every production consumes at least one
line before recursing; the mutually recursive productions are indexed by
a structural `fuel` (`DecFns` below), and `decodeStr` supplies more fuel
than any run can use. -/

structure Line where
  depth : Nat
  text : Chars
  number : Nat
deriving DecidableEq

structure ArrayHeader where
  key : Option Chars
  len : Nat
  delimiter : Delimiter
  fields : Option (List Chars)
  inlineValues : Option Chars
  line : Nat
deriving DecidableEq

/-- `"line N: "` prefixed decoding message. -/
def lineErr (n : Nat) (msg : Chars) : Chars :=
  "line ".data ++ natChars n ++ ": ".data ++ msg

/-- Rust `str::lines`: split at `\n`, drop a final empty segment produced by a
trailing newline, strip a trailing `\r` from each line. -/
def rustLines (input : Chars) : List Chars :=
  if input.isEmpty then []
  else
    let segs := splitOnChar '\n' input
    let segs := if input.getLast? = some '\n' then segs.dropLast else segs
    segs.map (fun s => if s.getLast? = some '\r' then s.dropLast else s)

/-- Count leading spaces; `none` when a tab appears in the leading
whitespace (`Decoder::new` rejects it). -/
def leadingSpaces : Chars → Option Nat
  | [] => some 0
  | c :: cs =>
    if c = ' ' then (leadingSpaces cs).map (· + 1)
    else if c = '\t' then none
    else some 0

/-- The tokenization loop of `Decoder::new`. -/
def tokenizeLines (indent : Nat) : List (Nat × Chars) → Except Chars (List Line)
  | [] => .ok []
  | (idx, raw) :: rest =>
    let lineNumber := idx + 1
    if (rustTrim raw).isEmpty then tokenizeLines indent rest
    else
      match leadingSpaces raw with
      | none => .error (lineErr lineNumber "tabs are not allowed for indentation".data)
      | some indentCount =>
        if indentCount % indent ≠ 0 then
          .error (lineErr lineNumber
            ("indentation must be a multiple of ".data ++ natChars indent ++ " spaces".data))
        else
          let depth := indentCount / indent
          let text := rustTrimEnd (raw.drop indentCount)
          if text.isEmpty then tokenizeLines indent rest
          else do
            let ls ← tokenizeLines indent rest
            .ok (⟨depth, text, lineNumber⟩ :: ls)

/-- `Decoder::new`. -/
def tokenize (input : Chars) (opts : DecoderOptions) : Except Chars (List Line) :=
  tokenizeLines opts.indent (rustLines input).enum

/-- `parse_quoted_string`'s unescaping loop. -/
def unescapeChars : Chars → Except Chars Chars
  | [] => .ok []
  | '\\' :: rest =>
    match rest with
    | [] => .error "unterminated escape".data
    | e :: rest2 =>
      if e = '\\' then (unescapeChars rest2).map ('\\' :: ·)
      else if e = '"' then (unescapeChars rest2).map ('"' :: ·)
      else if e = 'n' then (unescapeChars rest2).map ('\n' :: ·)
      else if e = 'r' then (unescapeChars rest2).map ('\r' :: ·)
      else if e = 't' then (unescapeChars rest2).map ('\t' :: ·)
      else .error ("unsupported escape \\".data ++ [e])
  | c :: rest => (unescapeChars rest).map (c :: ·)

/-- `parse_quoted_string` from `decoder.rs`.  (On the one-character input
`"` the Rust slice `raw[1..len-1]` panics; the embedding returns an error
for that degenerate case, which no theorem exercises.) -/
def parseQuotedString (raw : Chars) : Except Chars Chars :=
  if raw.getLast? ≠ some '"' then .error "unterminated string".data
  else if raw.length = 1 then .error "slice index out of range".data
  else unescapeChars ((raw.drop 1).dropLast)

/-- `parse_key_token` from `decoder.rs`. -/
def parseKeyToken (raw : Chars) : Except Chars Chars :=
  if raw.head? = some '"' then parseQuotedString raw
  else if raw.isEmpty then .error "key cannot be empty".data
  else .ok raw

/-- `is_numeric_literal` from `decoder.rs`. -/
def isNumericLiteral (token : Chars) : Bool :=
  if token.isEmpty then false
  else if token.head? == some '0' && decide (token.length > 1) &&
      token.all Char.isDigit then false
  else serdeNumberOk token

/-- `serde_json::Number::from_str` on a token it accepts: integer literals
within `i64`/`u64` range are stored exactly; other literals are stored as
the finite `f64` nearest to the decimal, modelled here by the literal's
exact decimal parts (the theorems only exercise integer tokens). -/
def numberFromStr (token : Chars) : Option NumJson :=
  if ¬ serdeNumberOk token then none
  else
    let t := jsonTrim token
    let (m, e) := decimalParts t
    if t.all (fun c => c ≠ '.' && c ≠ 'e' && c ≠ 'E') then
      if m < 0 then
        if -(2 ^ 63 : Int) ≤ m then some (.i m) else some (.f m e)
      else if m < (2 ^ 64 : Int) then some (.i m) else some (.f m e)
    else some (.f m e)

/-- `parse_primitive_token` from `decoder.rs`. -/
def parsePrimitiveToken (token : Chars) : Except Chars Value :=
  if token.head? = some '"' then (parseQuotedString token).map .str
  else if token = "true".data then .ok (.bool true)
  else if token = "false".data then .ok (.bool false)
  else if token = "null".data then .ok .null
  else if isNumericLiteral token then
    match numberFromStr token with
    | some n => .ok (.num n)
    | none => .error "invalid number literal".data
  else .ok (.str token)

/-- `split_key_value` from `decoder.rs` (`beforeRev` is the scanned text,
reversed). -/
def splitKeyValueGo : Chars → Chars → Bool → Bool → Option (Chars × Chars)
  | [], _, _, _ => none
  | c :: rest, beforeRev, inQuotes, escaped =>
    if c = '"' && !escaped then splitKeyValueGo rest (c :: beforeRev) (!inQuotes) false
    else if c = '\\' && inQuotes then splitKeyValueGo rest (c :: beforeRev) inQuotes (!escaped)
    else if c = ':' && !inQuotes then
      some (rustTrimEnd beforeRev.reverse, rustTrimStart rest)
    else splitKeyValueGo rest (c :: beforeRev) inQuotes false

def splitKeyValue (text : Chars) : Option (Chars × Chars) :=
  splitKeyValueGo text [] false false

/-- `split_delimited` from `decoder.rs` (`current` is reversed; the Rust
function's `Result` is always `Ok`). -/
def splitDelimitedGo (sep : Char) : Chars → Chars → Bool → List Chars
  | [], current, _ => [rustTrim current.reverse]
  | c :: rest, current, inQuotes =>
    if c = '"' then splitDelimitedGo sep rest (c :: current) (!inQuotes)
    else if c = '\\' && inQuotes then
      match rest with
      | [] => [rustTrim (c :: current).reverse]
      | n :: rest2 => splitDelimitedGo sep rest2 (n :: c :: current) inQuotes
    else if !inQuotes && c = sep then
      rustTrim current.reverse :: splitDelimitedGo sep rest [] inQuotes
    else splitDelimitedGo sep rest (c :: current) inQuotes

def splitDelimited (input : Chars) (d : Delimiter) : List Chars :=
  splitDelimitedGo d.asChar input [] false

/-- The quote-aware scan of `is_tabular_row_line`, recording the first
unquoted delimiter and the first unquoted colon. -/
def tabularScanGo (sep : Char) : Chars → Nat → Bool → Bool → Option Nat → Option Nat →
    Option Nat × Option Nat
  | [], _, _, _, firstDelim, firstColon => (firstDelim, firstColon)
  | c :: rest, idx, inQuotes, escaped, firstDelim, firstColon =>
    if inQuotes then
      if escaped then tabularScanGo sep rest (idx + 1) true false firstDelim firstColon
      else if c = '\\' then tabularScanGo sep rest (idx + 1) true true firstDelim firstColon
      else if c = '"' then tabularScanGo sep rest (idx + 1) false false firstDelim firstColon
      else tabularScanGo sep rest (idx + 1) true false firstDelim firstColon
    else
      if c = '"' then tabularScanGo sep rest (idx + 1) true false firstDelim firstColon
      else if c = ':' then
        tabularScanGo sep rest (idx + 1) false false firstDelim
          (if firstColon.isNone then some idx else firstColon)
      else if c = sep then
        tabularScanGo sep rest (idx + 1) false false
          (if firstDelim.isNone then some idx else firstDelim) firstColon
      else tabularScanGo sep rest (idx + 1) false false firstDelim firstColon

/-- `is_tabular_row_line` from `decoder.rs`. -/
def isTabularRowLine (text : Chars) (d : Delimiter) : Bool :=
  match tabularScanGo d.asChar text 0 false false none none with
  | (none, none) => true
  | (none, some _) => false
  | (some _, none) => true
  | (some delimIdx, some colonIdx) => delimIdx < colonIdx

/-- Rust `str::parse::<usize>`. -/
def parseUsize (s : Chars) : Option Nat :=
  let t := match s with
    | '+' :: r => r
    | r => r
  if t.isEmpty || !t.all Char.isDigit then none
  else
    let n := digitsToNat t
    if n < 2 ^ 64 then some n else none

/-- `parse_field_list` from `decoder.rs`. -/
def parseFieldList (segment : Chars) (d : Delimiter) : Except Chars (List Chars) :=
  (splitDelimited segment d).mapM (fun raw =>
    (parseKeyToken (rustTrim raw)).mapError (fun e => "invalid field name: ".data ++ e))

/-- `parse_header` from `decoder.rs`. -/
def parseHeader (text : Chars) (expectKey : Bool) (line : Nat) :
    Except Chars (Option ArrayHeader) :=
  match findIdxChar ':' text with
  | none => .ok none
  | some colonIdx =>
    let before := rustTrimEnd (text.take colonIdx)
    let after := rustTrimStart (text.drop (colonIdx + 1))
    if ¬ before.contains '[' then .ok none
    else
      match rfindIdxChar '[' before with
      | none => .error (lineErr line "malformed array header".data)
      | some bracketIdx => do
        let (rawKey, bracketPart) ←
          if bracketIdx = 0 then pure ((none : Option Chars), before)
          else do
            let keyText := rustTrimEnd (before.take bracketIdx)
            let key ← (parseKeyToken keyText).mapError (lineErr line)
            pure (some key, before.drop bracketIdx)
        if expectKey ∧ rawKey.isNone then
          .error (lineErr line "array header must include a key".data)
        else
          match findIdxChar ']' bracketPart with
          | none => .error (lineErr line "missing closing ']'".data)
          | some closing =>
            let bracketInner0 := rustTrim ((bracketPart.take closing).drop 1)
            let (bracketInner, delimiter) :=
              if bracketInner0.getLast? = some '|' then (bracketInner0.dropLast, Delimiter.pipe)
              else if bracketInner0.getLast? = some '\t' then
                (bracketInner0.dropLast, Delimiter.tab)
              else (bracketInner0, Delimiter.comma)
            match parseUsize bracketInner with
            | none => .error (lineErr line "invalid array length".data)
            | some len => do
              let remainder0 := rustTrimStart (bracketPart.drop (closing + 1))
              let (fields, remainder) ←
                if remainder0.head? = some '\x7b' then
                  match findIdxChar '\x7d' remainder0 with
                  | none => .error (lineErr line "missing '\x7d' in field list".data)
                  | some closingBrace => do
                    let fieldSegment := (remainder0.take closingBrace).drop 1
                    let list ← parseFieldList fieldSegment delimiter
                    pure (some list, rustTrimStart (remainder0.drop (closingBrace + 1)))
                else pure ((none : Option (List Chars)), remainder0)
              if ¬ remainder.isEmpty then
                .error (lineErr line "unexpected content after array header".data)
              else
                .ok (some ⟨rawKey, len, delimiter, fields,
                  (if after.isEmpty then none else some after), line⟩)

/-- `try_parse_header` from `decoder.rs`. -/
def tryParseHeader (line : Line) (expectKey : Bool) : Except Chars (Option ArrayHeader) :=
  if ¬ line.text.contains '[' then .ok none
  else parseHeader line.text expectKey line.number

/-- `parse_inline_array` from `decoder.rs`. -/
def parseInlineArray (opts : DecoderOptions) (len : Nat) (d : Delimiter)
    (values : Chars) (line : Nat) : Except Chars Value := do
  let cells := splitDelimited values d
  if opts.strict ∧ cells.length ≠ len then
    .error (lineErr line ("expected ".data ++ natChars len ++ " values but found ".data ++
      natChars cells.length))
  else do
    let out ← cells.mapM (fun cell =>
      (parsePrimitiveToken (rustTrim cell)).mapError (lineErr line))
    .ok (.arr out)

/-- The per-row object construction inside `parse_tabular_array`. -/
def buildRowGo (cells : List Chars) (lineNumber : Nat) :
    List Chars → Nat → List (Chars × Value) → Except Chars (List (Chars × Value))
  | [], _, acc => .ok acc
  | field :: fs, idx, acc => do
    let cellStr := rustTrim ((cells.get? idx).getD [])
    let v ← (parsePrimitiveToken cellStr).mapError (lineErr lineNumber)
    buildRowGo cells lineNumber fs (idx + 1) (mapInsert acc field v)

/-- The row-consuming loop of `parse_tabular_array`. -/
def tabularRows (opts : DecoderOptions) (fields : List Chars) (delim : Delimiter)
    (rowDepth : Nat) : List Line → Except Chars (List Value × List Line)
  | [] => .ok ([], [])
  | line :: rest =>
    if line.depth ≠ rowDepth then .ok ([], line :: rest)
    else if ¬ isTabularRowLine line.text delim then .ok ([], line :: rest)
    else
      let cells := splitDelimited line.text delim
      if opts.strict ∧ cells.length ≠ fields.length then
        .error (lineErr line.number ("expected ".data ++ natChars fields.length ++
          " cells but found ".data ++ natChars cells.length))
      else do
        let row ← buildRowGo cells line.number fields 0 []
        let (rows, rest') ← tabularRows opts fields delim rowDepth rest
        .ok (.obj row :: rows, rest')

/-- `parse_tabular_array` from `decoder.rs`. -/
def parseTabularArray (opts : DecoderOptions) (header : ArrayHeader)
    (containerDepth : Nat) (ls : List Line) : Except Chars (Value × List Line) := do
  let fields := header.fields.getD []
  let (rows, rest) ← tabularRows opts fields header.delimiter (containerDepth + 1) ls
  if opts.strict ∧ rows.length ≠ header.len then
    .error (lineErr header.line ("expected ".data ++ natChars header.len ++
      " rows but found ".data ++ natChars rows.length))
  else .ok (.arr rows, rest)

/-- Error used when the structural fuel runs out; `decodeStr` supplies
enough fuel that no run exhausts it. -/
def fuelErr : Chars := "decoder fuel exhausted".data

/-- The mutually recursive decoder productions at one fuel level.  Rust's
mutual recursion is encoded as a fuel-indexed record so that every
definition is structurally recursive (and so kernel-reducible): the
functions at fuel `n + 1` call the functions at fuel `n`, mirroring the
decremented-fuel calls of a conventional fueled mutual definition. -/
structure DecFns where
  parseObjectGo : Nat → List Line → List (Chars × Value) →
    Except Chars (List (Chars × Value) × List Line)
  consumeField : List (Chars × Value) → Nat → List Line →
    Except Chars (List (Chars × Value) × List Line)
  parseValueBlock : Nat → List Line → Except Chars (Value × List Line)
  consumeArray : ArrayHeader → Nat → List Line → Except Chars (Value × List Line)
  parseListArray : ArrayHeader → Nat → List Line → Except Chars (Value × List Line)
  listItems : Nat → List Line → Except Chars (List Value × List Line)
  siblingFields : Nat → List Line → List (Chars × Value) →
    Except Chars (List (Chars × Value) × List Line)
  parseInlineObjectInList : Chars → Nat → Nat → List Line →
    Except Chars (Value × List Line)

def decFnsZero : DecFns where
  parseObjectGo := fun _ _ _ => .error fuelErr
  consumeField := fun _ _ _ => .error fuelErr
  parseValueBlock := fun _ _ => .error fuelErr
  consumeArray := fun _ _ _ => .error fuelErr
  parseListArray := fun _ _ _ => .error fuelErr
  listItems := fun _ _ => .error fuelErr
  siblingFields := fun _ _ _ => .error fuelErr
  parseInlineObjectInList := fun _ _ _ _ => .error fuelErr

/-- One step of the decoder's mutual recursion (`decoder.rs`): the bodies
of `parse_object`'s loop, `consume_field`, `parse_value_block`,
`consume_array`, `parse_list_array` (final check and row loop),
the `while … consume_field` sibling loops, and
`parse_inline_object_in_list`. -/
def mkDecFns (opts : DecoderOptions) : Nat → DecFns
  | 0 => decFnsZero
  | fuel + 1 =>
    let prev := mkDecFns opts fuel
    { parseObjectGo := fun depth ls acc =>
        match ls with
        | [] => .ok (acc, [])
        | line :: rest =>
          if line.depth ≠ depth then .ok (acc, line :: rest)
          else do
            match ← tryParseHeader line true with
            | some header =>
              match header.key with
              | none => .error (lineErr line.number "array header requires a key".data)
              | some key => do
                let (value, rest') ← prev.consumeArray header depth rest
                prev.parseObjectGo depth rest' (mapInsert acc key value)
            | none => do
              let (acc', rest') ← prev.consumeField acc depth (line :: rest)
              prev.parseObjectGo depth rest' acc'
      consumeField := fun acc depth ls =>
        match ls with
        | [] => .error "unexpected end of document".data
        | line :: rest => do
          match ← parseHeader line.text true line.number with
          | some header =>
            match header.key with
            | none => .error (lineErr line.number "array header requires a key".data)
            | some key => do
              let (value, rest') ← prev.consumeArray header depth rest
              .ok (mapInsert acc key value, rest')
          | none =>
            match splitKeyValue line.text with
            | none => .error (lineErr line.number "expected `key: value`".data)
            | some (rawKey, restStr) => do
              let key ← (parseKeyToken rawKey).mapError (lineErr line.number)
              if (rustTrim restStr).isEmpty then
                match rest with
                | [] => .ok (mapInsert acc key (.obj []), [])
                | next :: _ =>
                  if next.depth ≤ depth then .ok (mapInsert acc key (.obj []), rest)
                  else do
                    let (value, rest') ← prev.parseValueBlock (depth + 1) rest
                    .ok (mapInsert acc key value, rest')
              else do
                let value ← (parsePrimitiveToken (rustTrim restStr)).mapError
                  (lineErr line.number)
                .ok (mapInsert acc key value, rest)
      parseValueBlock := fun depth ls =>
        match ls with
        | [] => .ok (.null, [])
        | line :: rest =>
          if line.depth ≠ depth then .ok (.obj [], line :: rest)
          else if line.text.head? = some '[' then do
            match ← parseHeader line.text false line.number with
            | none => .error (lineErr line.number "expected array header".data)
            | some header => prev.consumeArray header (depth - 1) rest
          else if (splitKeyValue line.text).isSome then do
            let (entries, rest') ← prev.parseObjectGo depth (line :: rest) []
            .ok (.obj entries, rest')
          else do
            let v ← (parsePrimitiveToken (rustTrim line.text)).mapError
              (lineErr line.number)
            .ok (v, rest)
      consumeArray := fun header containerDepth ls =>
        let inlineOpt := match header.inlineValues with
          | some inl => if inl.isEmpty then none else some inl
          | none => none
        match inlineOpt with
        | some inl => do
          let v ← parseInlineArray opts header.len header.delimiter inl header.line
          .ok (v, ls)
        | none =>
          match header.fields with
          | some _ => parseTabularArray opts header containerDepth ls
          | none => prev.parseListArray header containerDepth ls
      parseListArray := fun header containerDepth ls => do
        let (items, rest) ← prev.listItems (containerDepth + 1) ls
        if opts.strict ∧ items.length ≠ header.len then
          .error (lineErr header.line ("expected ".data ++ natChars header.len ++
            " list items but found ".data ++ natChars items.length))
        else .ok (.arr items, rest)
      listItems := fun rowDepth ls =>
        match ls with
        | [] => .ok ([], [])
        | line :: rest0 =>
          if line.depth ≠ rowDepth then .ok ([], line :: rest0)
          else if ¬ (line.text.take 2 = ['-', ' ']) then
            .error (lineErr line.number "expected '-' to start list item".data)
          else do
            let remainder := rustTrim (line.text.drop 2)
            let (value, rest') ←
              if remainder.isEmpty then do
                let (entries, r) ← prev.parseObjectGo (rowDepth + 1) rest0 []
                pure (Value.obj entries, r)
              else do
                match ← parseHeader remainder false line.number with
                | some subHeader => do
                  let (v, r) ← prev.consumeArray { subHeader with key := none }
                    rowDepth rest0
                  match subHeader.key with
                  | some key => do
                    let (m, r2) ← prev.siblingFields (rowDepth + 1) r [(key, v)]
                    pure (Value.obj m, r2)
                  | none => pure (v, r)
                | none =>
                  if remainder.contains ':' then
                    prev.parseInlineObjectInList remainder rowDepth line.number rest0
                  else do
                    let v ← (parsePrimitiveToken remainder).mapError (lineErr line.number)
                    pure (v, rest0)
            let (items, rest'') ← prev.listItems rowDepth rest'
            .ok (value :: items, rest'')
      siblingFields := fun depth ls acc =>
        match ls with
        | [] => .ok (acc, [])
        | next :: rest =>
          if next.depth ≠ depth then .ok (acc, next :: rest)
          else do
            let (acc', rest') ← prev.consumeField acc depth (next :: rest)
            prev.siblingFields depth rest' acc'
      parseInlineObjectInList := fun inl rowDepth lineNumber ls =>
        match splitKeyValue inl with
        | none => .error (lineErr lineNumber "invalid list object syntax".data)
        | some (rawKey, restStr) => do
          let key ← (parseKeyToken rawKey).mapError (lineErr lineNumber)
          let (m0, ls1) ←
            if (rustTrim restStr).isEmpty then do
              let (v, r) ← prev.parseValueBlock (rowDepth + 2) ls
              pure ([(key, v)], r)
            else do
              let v ← (parsePrimitiveToken (rustTrim restStr)).mapError (lineErr lineNumber)
              pure ([(key, v)], ls)
          let (m, r2) ← prev.siblingFields (rowDepth + 1) ls1 m0
          .ok (Value.obj m, r2) }

/-- The field loop of `parse_object` from `decoder.rs`. -/
def parseObjectGo (opts : DecoderOptions) (fuel : Nat) (depth : Nat) (ls : List Line)
    (acc : List (Chars × Value)) : Except Chars (List (Chars × Value) × List Line) :=
  (mkDecFns opts fuel).parseObjectGo depth ls acc

/-- `consume_field` from `decoder.rs`. -/
def consumeField (opts : DecoderOptions) (fuel : Nat) (acc : List (Chars × Value))
    (depth : Nat) (ls : List Line) : Except Chars (List (Chars × Value) × List Line) :=
  (mkDecFns opts fuel).consumeField acc depth ls

/-- `parse_value_block` from `decoder.rs`. -/
def parseValueBlock (opts : DecoderOptions) (fuel : Nat) (depth : Nat) (ls : List Line) :
    Except Chars (Value × List Line) :=
  (mkDecFns opts fuel).parseValueBlock depth ls

/-- `consume_array` from `decoder.rs`. -/
def consumeArray (opts : DecoderOptions) (fuel : Nat) (header : ArrayHeader)
    (containerDepth : Nat) (ls : List Line) : Except Chars (Value × List Line) :=
  (mkDecFns opts fuel).consumeArray header containerDepth ls

/-- `parse_list_array` from `decoder.rs`. -/
def parseListArray (opts : DecoderOptions) (fuel : Nat) (header : ArrayHeader)
    (containerDepth : Nat) (ls : List Line) : Except Chars (Value × List Line) :=
  (mkDecFns opts fuel).parseListArray header containerDepth ls

/-- The row loop of `parse_list_array`. -/
def listItems (opts : DecoderOptions) (fuel : Nat) (rowDepth : Nat) (ls : List Line) :
    Except Chars (List Value × List Line) :=
  (mkDecFns opts fuel).listItems rowDepth ls

/-- `parse_root` from `decoder.rs`. -/
def parseRoot (opts : DecoderOptions) (fuel : Nat) (ls : List Line) :
    Except Chars Value :=
  match ls with
  | [] => .ok (.obj [])
  | line0 :: rest => do
    if line0.text.head? = some '[' then do
      match ← parseHeader line0.text false line0.number with
      | none => .error (lineErr line0.number "expected array header".data)
      | some header => do
        let (v, _) ← consumeArray opts fuel header 0 rest
        .ok v
    else if ¬ line0.text.contains ':' then
      (parsePrimitiveToken (rustTrim line0.text)).mapError (lineErr line0.number)
    else do
      let (entries, _) ← parseObjectGo opts fuel 0 (line0 :: rest) []
      .ok (.obj entries)

/-! ## Path expansion (`decoder.rs::expand_paths` and helpers) -/

/-- `insert_segments` from `decoder.rs`. -/
def insertSegments (current : List (Chars × Value)) (segments : List Chars)
    (value : Value) (strict : Bool) (fullKey : Chars) :
    Except Chars (List (Chars × Value)) :=
  match segments with
  | [] => .ok current
  | [seg] =>
    match lookupAssoc current seg with
    | some _ =>
      if strict then .error ("expansion conflict at '".data ++ fullKey ++ ['\''])
      else .ok (mapInsert current seg value)
    | none => .ok (current ++ [(seg, value)])
  | seg :: restSegs =>
    match lookupAssoc current seg with
    | some (Value.obj inner) => do
      let inner' ← insertSegments inner restSegs value strict fullKey
      .ok (mapInsert current seg (.obj inner'))
    | some other =>
      if strict then
        .error ("expansion conflict at '".data ++ fullKey ++
          "': expected object but found ".data ++ valueDebug other)
      else do
        let inner' ← insertSegments [] restSegs value strict fullKey
        .ok (mapInsert current seg (.obj inner'))
    | none => do
      let inner' ← insertSegments [] restSegs value strict fullKey
      .ok (current ++ [(seg, .obj inner')])

/-- `insert_expanded` from `decoder.rs`. -/
def insertExpanded (target : List (Chars × Value)) (dotted : Chars) (value : Value)
    (strict : Bool) : Except Chars (List (Chars × Value)) :=
  let segments := splitOnChar '.' dotted
  if segments.isEmpty then .ok target
  else insertSegments target segments value strict dotted

/-- The mutually recursive `expand_paths` walk at one fuel level (one fuel
unit per nesting level plus one per remaining sibling, as in the decoder's
`DecFns`). -/
structure ExpFns where
  value : Bool → Value → Except Chars Value
  entries : Bool → List (Chars × Value) → List (Chars × Value) →
    Except Chars (List (Chars × Value))
  items : Bool → List Value → Except Chars (List Value)

def expFnsZero : ExpFns where
  value := fun _ _ => .error fuelErr
  entries := fun _ _ _ => .error fuelErr
  items := fun _ _ => .error fuelErr

def mkExpFns : Nat → ExpFns
  | 0 => expFnsZero
  | fuel + 1 =>
    let prev := mkExpFns fuel
    { value := fun strict v =>
        match v with
        | .obj entries => do
          let repl ← prev.entries strict entries []
          .ok (.obj repl)
        | .arr items => do
          let out ← prev.items strict items
          .ok (.arr out)
        | other => .ok other
      entries := fun strict entries repl =>
        match entries with
        | [] => .ok repl
        | (key, val) :: rest => do
          let val' ← prev.value strict val
          let repl' ←
            if key.contains '.' ∧ (splitOnChar '.' key).all isIdentifierSegment then
              insertExpanded repl key val' strict
            else .ok (mapInsert repl key val')
          prev.entries strict rest repl'
      items := fun strict items =>
        match items with
        | [] => .ok []
        | item :: rest => do
          let item' ← prev.value strict item
          let rest' ← prev.items strict rest
          .ok (item' :: rest') }

/-- `expand_paths` from `decoder.rs`.  The fuel `2^64` covers every value
a real process can hold (the walk uses one unit per level and sibling);
the `c9` theorem quantifies over the fuel with an explicit bound. -/
def expandPaths (v : Value) (strict : Bool) : Except Chars Value :=
  (mkExpFns (2 ^ 64)).value strict v

/-- `decode_str` from `decoder.rs`. -/
def decodeStr (input : Chars) (opts : DecoderOptions) : Except Chars Value := do
  let ls ← tokenize input opts
  let v ← parseRoot opts (4 * ls.length + 16) ls
  match opts.expandPaths with
  | .safe => expandPaths v opts.strict
  | .off => .ok v

/-- `validate_str` from `validator.rs`. -/
def validateStr (input : Chars) (opts : DecoderOptions) : Except Chars Unit := do
  let _ ← decodeStr input opts
  .ok ()

/-! ## Concrete values used by the evaluation theorems -/

/-- `{"a[b": 1}`: a one-field object whose key contains `[`. -/
def vBracketKey : Value := .obj [("a[b".data, .num (.i 1))]

/-- `{"k": [{"a": 1}, "x: y"]}`: all keys are identifier segments; the
array mixes an object and a string containing `": "`. -/
def vColonString : Value :=
  .obj [("k".data, .arr [.obj [("a".data, .num (.i 1))], .str "x: y".data])]

/-- `C1` — encoding `{"a[b": 1}` quotes the key, but decoding the result
fails: `parse_header` looks for `[` without quote-awareness, splits the
line inside the quoted key, and reports `line 1: unterminated string`.
So `decode_str(encode_value(v, optsE), optsD) ≠ Ok(v)` even with
`key_folding = Off`, `expand_paths = Off` and matching delimiters. -/
theorem c1_bracket_key_roundtrip_fails :
    encodeValue vBracketKey encoderDefaults = .ok "\"a[b\": 1".data ∧
    decodeStr "\"a[b\": 1".data decoderDefaults =
      .error "line 1: unterminated string".data := by
  refine ⟨?_, rfl⟩
  simp [encodeValue, encodeRoot, encodeFieldsAux, encodeFoldedField, encodeNamedValue,
    vBracketKey, foldKey, encoderDefaults, stringifyPrimitive, canonicalizeNumber,
    intChars, natChars, natDigitsAux, encodeKey, isIdentifierKey, pushLine, indentChars,
    List.intercalate]
  rfl

set_option maxRecDepth 40000 in
/-- `C7` — `{"k": [{"a": 1}, "x: y"]}` has only identifier-segment keys and
no sibling collisions, yet encoding with `key_folding = Safe` and decoding
with `expand_paths = Safe` (strict) errors instead of recovering the
value: the quoted list item `"x: y"` contains a colon, so
`parse_list_array` routes it to `parse_inline_object_in_list`, which finds
no unquoted colon and fails. -/
theorem c7_safe_roundtrip_fails :
    encodeValue vColonString ⟨2, .comma, .safe none⟩ =
      .ok "k[2]:\n  - a: 1\n  - \"x: y\"".data ∧
    decodeStr "k[2]:\n  - a: 1\n  - \"x: y\"".data ⟨2, true, .safe⟩ =
      .error "line 3: invalid list object syntax".data := by
  refine ⟨?_, rfl⟩
  have hf1 : foldKey ⟨2, .comma, .safe none⟩ "k".data
      (.arr [.obj [("a".data, .num (.i 1))], .str "x: y".data])
      [("k".data, .arr [.obj [("a".data, .num (.i 1))], .str "x: y".data])] =
      ⟨"k".data, .arr [.obj [("a".data, .num (.i 1))], .str "x: y".data]⟩ := rfl
  have hf2 : foldKey ⟨2, .comma, .safe none⟩ "a".data (.num (.i 1))
      [("a".data, .num (.i 1))] = ⟨"a".data, .num (.i 1)⟩ := rfl
  have hq : stringifyPrimitive ⟨2, .comma, .safe none⟩ (.str "x: y".data)
      (some Delimiter.comma) = .ok "\"x: y\"".data := rfl
  have hn : stringifyPrimitive ⟨2, .comma, .safe none⟩ (.num (.i 1))
      (some Delimiter.comma) = .ok ['1'] := rfl
  have hd : detectTabular [.obj [("a".data, .num (.i 1))], .str "x: y".data] = none := rfl
  simp [encodeValue, encodeRoot, encodeFieldsAux, encodeFoldedField, encodeNamedValue,
    encodeArray, generalListItems, encodeObjectListItem, encodeListFirstPair,
    vColonString, hf1, hf2, hq, hn, hd, Value.isPrimitive, isArrayOfPrimitiveArrays,
    formatHeader, natChars, natDigitsAux, encodeKey, isIdentifierKey, pushLine,
    indentChars, List.intercalate]
  rfl

set_option maxRecDepth 40000 in
/-- `C2` counterexample — two objects with the same keys in different
insertion orders (`{"a":1,"b":2}` and `{"b":3,"a":4}`) are detected as
tabular (`detect_tabular` compares entry counts and key membership, never
insertion order), and the encoder emits the tabular shape for them. -/
theorem c2_key_order_ignored :
    detectTabular [.obj [("a".data, .num (.i 1)), ("b".data, .num (.i 2))],
      .obj [("b".data, .num (.i 3)), ("a".data, .num (.i 4))]] =
      some ["a".data, "b".data] ∧
    encodeValue (.obj [("u".data, .arr [
      .obj [("a".data, .num (.i 1)), ("b".data, .num (.i 2))],
      .obj [("b".data, .num (.i 3)), ("a".data, .num (.i 4))]])]) encoderDefaults =
      .ok "u[2]{a,b}:\n  1,2\n  4,3".data := by
  refine ⟨rfl, ?_⟩
  simp [encodeValue, encodeRoot, encodeFieldsAux, encodeFoldedField, encodeNamedValue,
    encodeArray, foldKey, encoderDefaults, Value.isPrimitive]
  rfl

/-- `C3` counterexample — the input `ab[cd` contains `[` but no `:`; the
decoder takes the primitive-root branch (`parse_root` only tests for a
colon) and returns the string, not an object parse. -/
theorem c3_bracket_line_is_primitive_root :
    decodeStr "ab[cd".data decoderDefaults = .ok (.str "ab[cd".data) ∧
    (Value.str "ab[cd".data).isObj = false :=
  ⟨rfl, rfl⟩

set_option maxRecDepth 40000 in
/-- `C10` counterexample — `"  [1]: 5"` has its first non-blank line at
depth 1 and contains a colon, yet `decode_str` returns the inline array
`[5]` (the root dispatch tests the text, which is stripped of
indentation, for a leading `[` before any depth check), not the empty
object. -/
theorem c10_indented_bracket_line_is_root_array :
    decodeStr "  [1]: 5".data decoderDefaults = .ok (.arr [.num (.i 5)]) ∧
    (Value.arr [.num (.i 5)]).isObj = false :=
  ⟨rfl, rfl⟩

set_option maxRecDepth 100000 in
/-- `C4` counterexample — `1e309` matches the JSON number grammar, yet
`encode_string` leaves it unquoted: `is_numeric_like` asks serde to parse
the literal, and serde rejects numbers that overflow `f64` (`1e309` is
beyond `2^1024 - 2^970`), so the claim's grammar-based reading of
"numeric-like" does not match the code. -/
theorem c4_overflowing_literal_unquoted :
    encodeString "1e309".data (some .comma) = "1e309".data ∧
    jsonNumberGrammar "1e309".data = true :=
  ⟨rfl, rfl⟩

set_option maxRecDepth 40000 in
/-- `C9` counterexample — decoding `"a: 2\na.b: 1"` under `strict` with
`expand_paths = Safe` fails in the expansion post-pass; the error message
carries no `line N:` prefix. -/
theorem c9_expansion_error_lacks_line_anchor :
    decodeStr "a: 2\na.b: 1".data ⟨2, true, .safe⟩ =
      .error "expansion conflict at 'a.b': expected object but found Number(2)".data ∧
    "line ".data.isPrefixOf
      "expansion conflict at 'a.b': expected object but found Number(2)".data = false :=
  ⟨rfl, rfl⟩

/-- `C5` — under `strict`, each of the three array consumers rejects a
length mismatch with an error anchored on the header's 1-based line
number: `parse_tabular_array` when the consumed rows differ from `Len`,
`parse_list_array` when the consumed list items differ from `Len`, and
`parse_inline_array` when the inline cells differ from `Len`. -/
theorem c5_strict_length_mismatch_errors (opts : DecoderOptions)
    (hstrict : opts.strict = true) :
    (∀ (header : ArrayHeader) (containerDepth : Nat) (ls rest : List Line)
        (rows : List Value),
      tabularRows opts (header.fields.getD []) header.delimiter (containerDepth + 1) ls
          = .ok (rows, rest) →
      rows.length ≠ header.len →
      parseTabularArray opts header containerDepth ls =
        .error (lineErr header.line ("expected ".data ++ natChars header.len ++
          " rows but found ".data ++ natChars rows.length))) ∧
    (∀ (fuel : Nat) (header : ArrayHeader) (containerDepth : Nat) (ls rest : List Line)
        (items : List Value),
      listItems opts fuel (containerDepth + 1) ls = .ok (items, rest) →
      items.length ≠ header.len →
      parseListArray opts (fuel + 1) header containerDepth ls =
        .error (lineErr header.line ("expected ".data ++ natChars header.len ++
          " list items but found ".data ++ natChars items.length))) ∧
    (∀ (len : Nat) (d : Delimiter) (values : Chars) (line : Nat),
      (splitDelimited values d).length ≠ len →
      parseInlineArray opts len d values line =
        .error (lineErr line ("expected ".data ++ natChars len ++
          " values but found ".data ++ natChars (splitDelimited values d).length))) := by
  refine ⟨?_, ?_, ?_⟩
  · intro header containerDepth ls rest rows htab hneq
    simp [parseTabularArray, htab, hstrict, hneq, Bind.bind, Except.bind]
  · intro fuel header containerDepth ls rest items hitems hneq
    simp only [parseListArray, mkDecFns]
    simp only [listItems] at hitems
    simp [hitems, hstrict, hneq, Bind.bind, Except.bind]
  · intro len d values line hneq
    simp [parseInlineArray, hstrict, hneq, Bind.bind, Except.bind]

/-- Witness for `c5_strict_length_mismatch_errors`: the inline header
`xs[3]: 1,2` (line 1) declares three values but carries two. -/
theorem c5_strict_length_mismatch_errors_witness :
    parseInlineArray decoderDefaults 3 .comma "1,2".data 1 =
      .error (lineErr 1 ("expected ".data ++ natChars 3 ++
        " values but found ".data ++ natChars (splitDelimited "1,2".data .comma).length)) :=
  (c5_strict_length_mismatch_errors decoderDefaults rfl).2.2 3 .comma "1,2".data 1
    (by decide)

/-! ## Helper lemmas about decoding results -/

theorem parsePrimitiveToken_isPrimitive (t : Chars) (v : Value)
    (h : parsePrimitiveToken t = .ok v) : v.isPrimitive = true := by
  unfold parsePrimitiveToken at h
  split at h
  · rcases hq : parseQuotedString t with e | s <;> rw [hq] at h <;>
      simp [Except.map] at h
    subst h; rfl
  · split at h
    · cases h; rfl
    · split at h
      · cases h; rfl
      · split at h
        · cases h; rfl
        · split at h
          · split at h
            · cases h; rfl
            · cases h
          · cases h; rfl

theorem expandPaths_obj_nil (strict : Bool) :
    expandPaths (.obj []) strict = .ok (.obj []) := rfl

theorem expandPaths_of_isPrimitive (v : Value) (strict : Bool)
    (h : v.isPrimitive = true) : expandPaths v strict = .ok v := by
  cases v with
  | null => rfl
  | bool b => rfl
  | num n => rfl
  | str s => rfl
  | arr items => simp [Value.isPrimitive] at h
  | obj entries => simp [Value.isPrimitive] at h

/-- `C10` (amended) — the decoder never requires all lines to be consumed:
when the first tokenized line sits deeper than depth 0, contains a colon,
and does not begin with `[`, `decode_str` succeeds with the empty object,
leaving every line unconsumed, regardless of `strict`; and when the first
line contains no colon and does not begin with `[`, the result is exactly
the primitive parse of that first line — all following lines are silently
discarded. -/
theorem c10_root_dispatch_discards_lines (input : Chars) (opts : DecoderOptions)
    (l : Line) (ls : List Line) (htok : tokenize input opts = .ok (l :: ls)) :
    (l.depth ≠ 0 → l.text.head? ≠ some '[' → l.text.contains ':' = true →
      decodeStr input opts = .ok (.obj [])) ∧
    (l.text.head? ≠ some '[' → l.text.contains ':' = false →
      decodeStr input opts = (parsePrimitiveToken (rustTrim l.text)).mapError
        (lineErr l.number)) := by
  constructor
  · intro hdepth hbr hcolon
    have hfuel : 4 * (l :: ls).length + 16 = (4 * (l :: ls).length + 15) + 1 := by omega
    have hstep : parseObjectGo opts ((4 * (l :: ls).length + 15) + 1) 0 (l :: ls) []
        = .ok ([], l :: ls) := by
      simp only [parseObjectGo]
      conv_lhs => rw [mkDecFns]
      simp [hdepth]
    simp only [decodeStr, htok, Bind.bind, Except.bind]
    rw [hfuel]
    simp only [parseRoot, hbr, hcolon]
    simp only [hstep, if_neg, Bool.not_eq_true]
    simp [hbr, hcolon, hstep]
    cases hexp : opts.expandPaths with
    | off => rfl
    | safe => simp [Bind.bind, Except.bind, expandPaths_obj_nil]
  · intro hbr hcolon
    simp only [decodeStr, htok, Bind.bind, Except.bind]
    simp only [parseRoot, hbr, hcolon]
    simp only [if_neg, Bool.not_eq_true]
    rcases hp : parsePrimitiveToken (rustTrim l.text) with e | v
    · simp [hp, hbr, hcolon, Except.mapError]
    · have hprim := parsePrimitiveToken_isPrimitive _ _ hp
      cases hexp : opts.expandPaths with
      | off => simp [hp, hbr, hcolon, Except.mapError]
      | safe =>
        simp [hp, hbr, hcolon, Except.mapError,
          expandPaths_of_isPrimitive v opts.strict hprim]

/-- Witness for `c10_root_dispatch_discards_lines`: `"  a: 1"` tokenizes to
one line of depth 1 containing a colon, and decodes to the empty object. -/
theorem c10_root_dispatch_discards_lines_witness :
    decodeStr "  a: 1".data decoderDefaults = .ok (.obj []) :=
  (c10_root_dispatch_discards_lines "  a: 1".data decoderDefaults
    ⟨1, "a: 1".data, 1⟩ [] rfl).1 (by decide) (by decide) (by decide)

/-! Shape lemmas: every array consumer yields `Value.arr`, objects stay
objects through path expansion. -/

theorem parseInlineArray_ok_shape (opts : DecoderOptions) (len : Nat) (d : Delimiter)
    (values : Chars) (line : Nat) (v : Value)
    (h : parseInlineArray opts len d values line = .ok v) : ∃ items, v = .arr items := by
  unfold parseInlineArray at h
  dsimp only at h
  split at h
  · cases h
  · rcases hm : (splitDelimited values d).mapM
        (fun cell => (parsePrimitiveToken (rustTrim cell)).mapError (lineErr line)) with
      e | out
    · rw [hm] at h; cases h
    · rw [hm] at h
      simp only [Bind.bind, Except.bind] at h
      cases h
      exact ⟨out, rfl⟩

theorem parseTabularArray_ok_shape (opts : DecoderOptions) (header : ArrayHeader)
    (containerDepth : Nat) (ls : List Line) (v : Value) (rest : List Line)
    (h : parseTabularArray opts header containerDepth ls = .ok (v, rest)) :
    ∃ items, v = .arr items := by
  unfold parseTabularArray at h
  dsimp only at h
  rcases ht : tabularRows opts (header.fields.getD []) header.delimiter
      (containerDepth + 1) ls with e | p
  · rw [ht] at h; cases h
  · rw [ht] at h
    simp only [Bind.bind, Except.bind] at h
    split at h
    · cases h
    · cases h
      exact ⟨p.1, rfl⟩

theorem parseListArray_ok_shape (opts : DecoderOptions) (fuel : Nat)
    (header : ArrayHeader) (containerDepth : Nat) (ls : List Line) (v : Value)
    (rest : List Line)
    (h : parseListArray opts fuel header containerDepth ls = .ok (v, rest)) :
    ∃ items, v = .arr items := by
  cases fuel with
  | zero => cases h
  | succ fuel =>
    simp only [parseListArray, mkDecFns] at h
    rcases hi : (mkDecFns opts fuel).listItems (containerDepth + 1) ls with e | p
    · rw [hi] at h; cases h
    · rw [hi] at h
      simp only [Bind.bind, Except.bind] at h
      split at h
      · cases h
      · cases h
        exact ⟨p.1, rfl⟩

theorem consumeArray_ok_shape (opts : DecoderOptions) (fuel : Nat)
    (header : ArrayHeader) (containerDepth : Nat) (ls : List Line) (v : Value)
    (rest : List Line)
    (h : consumeArray opts fuel header containerDepth ls = .ok (v, rest)) :
    ∃ items, v = .arr items := by
  cases fuel with
  | zero => cases h
  | succ fuel =>
    simp only [consumeArray, mkDecFns] at h
    split at h
    next inl _ =>
      rcases hp : parseInlineArray opts header.len header.delimiter inl header.line with
        e | w
      · rw [hp] at h; cases h
      · rw [hp] at h
        simp only [Bind.bind, Except.bind] at h
        cases h
        exact parseInlineArray_ok_shape opts header.len header.delimiter inl header.line
          _ hp
    next =>
      split at h
      · exact parseTabularArray_ok_shape opts header containerDepth ls v rest h
      · exact parseListArray_ok_shape opts fuel header containerDepth ls v rest h

theorem mkExpFns_arr_shape (fuel : Nat) (strict : Bool) (items : List Value) (w : Value)
    (h : (mkExpFns fuel).value strict (.arr items) = .ok w) : ∃ out, w = .arr out := by
  cases fuel with
  | zero => cases h
  | succ fuel =>
    simp only [mkExpFns] at h
    rcases hi : (mkExpFns fuel).items strict items with e | out
    · rw [hi] at h; cases h
    · rw [hi] at h
      simp only [Bind.bind, Except.bind] at h
      cases h
      exact ⟨out, rfl⟩

theorem mkExpFns_obj_shape (fuel : Nat) (strict : Bool)
    (entries : List (Chars × Value)) (w : Value)
    (h : (mkExpFns fuel).value strict (.obj entries) = .ok w) : ∃ out, w = .obj out := by
  cases fuel with
  | zero => cases h
  | succ fuel =>
    simp only [mkExpFns] at h
    rcases hi : (mkExpFns fuel).entries strict entries [] with e | out
    · rw [hi] at h; cases h
    · rw [hi] at h
      simp only [Bind.bind, Except.bind] at h
      cases h
      exact ⟨out, rfl⟩

/-- `C3` (amended) — the decoder's root production: an input with no
non-blank lines decodes to the empty object; an input whose first line
begins with `[` only ever succeeds with an array value; an input whose
first line contains no `:` decodes as a single primitive root (whether or
not `[` appears later in the line); and when the first line contains `:`
and does not begin with `[`, a successful decode always yields an
object. -/
theorem c3_root_dispatch (input : Chars) (opts : DecoderOptions) :
    (tokenize input opts = .ok [] → decodeStr input opts = .ok (.obj [])) ∧
    (∀ l ls, tokenize input opts = .ok (l :: ls) →
      (l.text.head? = some '[' → ∀ v, decodeStr input opts = .ok v →
        ∃ items, v = .arr items) ∧
      (l.text.head? ≠ some '[' → l.text.contains ':' = false →
        decodeStr input opts = (parsePrimitiveToken (rustTrim l.text)).mapError
          (lineErr l.number)) ∧
      (l.text.head? ≠ some '[' → l.text.contains ':' = true →
        ∀ v, decodeStr input opts = .ok v → ∃ entries, v = .obj entries)) := by
  constructor
  · intro htok
    simp only [decodeStr, htok, Bind.bind, Except.bind, parseRoot]
    cases opts.expandPaths with
    | off => rfl
    | safe => exact expandPaths_obj_nil opts.strict
  · intro l ls htok
    refine ⟨?_, ?_, ?_⟩
    · intro hbr v hdec
      simp only [decodeStr, htok, Bind.bind, Except.bind] at hdec
      simp only [parseRoot, hbr, if_true] at hdec
      rcases hh : parseHeader l.text false l.number with e | ho
      · rw [hh] at hdec; cases hdec
      · rw [hh] at hdec
        simp only [Bind.bind, Except.bind] at hdec
        rcases ho with _ | header
        · simp at hdec
        · simp only at hdec
          rcases hc : consumeArray opts (4 * (l :: ls).length + 16) header 0 ls with
            e | p
          · rw [hc] at hdec; cases hdec
          · rw [hc] at hdec
            obtain ⟨items, hitems⟩ := consumeArray_ok_shape opts _ header 0 ls p.1 p.2
              (by rw [hc])
            simp only at hdec
            cases hexp : opts.expandPaths with
            | off =>
              rw [hexp] at hdec
              cases hdec
              exact ⟨items, hitems⟩
            | safe =>
              rw [hexp] at hdec
              rw [hitems] at hdec
              obtain ⟨out, hout⟩ := mkExpFns_arr_shape (2 ^ 64) opts.strict items v hdec
              exact ⟨out, hout⟩
    · intro hbr hcolon
      simp only [decodeStr, htok, Bind.bind, Except.bind]
      simp only [parseRoot, hbr, hcolon]
      simp only [if_neg, Bool.not_eq_true]
      rcases hp : parsePrimitiveToken (rustTrim l.text) with e | v
      · simp [hp, hbr, hcolon, Except.mapError]
      · have hprim := parsePrimitiveToken_isPrimitive _ _ hp
        cases hexp : opts.expandPaths with
        | off => simp [hp, hbr, hcolon, Except.mapError]
        | safe =>
          simp [hp, hbr, hcolon, Except.mapError,
            expandPaths_of_isPrimitive v opts.strict hprim]
    · intro hbr hcolon v hdec
      simp only [decodeStr, htok, Bind.bind, Except.bind] at hdec
      simp only [parseRoot, hbr, hcolon] at hdec
      rcases hg : parseObjectGo opts (4 * (l :: ls).length + 16) 0 (l :: ls) [] with
        e | p
      · simp only [hg, hbr, hcolon] at hdec
        simp [Bind.bind, Except.bind] at hdec
      · simp only [hg, hbr, hcolon] at hdec
        simp only [Bind.bind, Except.bind] at hdec
        cases hexp : opts.expandPaths with
        | off =>
          rw [hexp] at hdec
          simp [Bind.bind, Except.bind] at hdec
          exact ⟨p.1, hdec.symm⟩
        | safe =>
          rw [hexp] at hdec
          simp [Bind.bind, Except.bind] at hdec
          exact mkExpFns_obj_shape (2 ^ 64) opts.strict p.1 v hdec

/-- Witness for `c3_root_dispatch` at `"ab[cd"`: no colon, so the decoder
returns the primitive parse of the single line. -/
theorem c3_root_dispatch_witness :
    decodeStr "ab[cd".data decoderDefaults =
      (parsePrimitiveToken (rustTrim "ab[cd".data)).mapError (lineErr 1) :=
  ((c3_root_dispatch "ab[cd".data decoderDefaults).2 ⟨0, "ab[cd".data, 1⟩ [] rfl).2.1
    (by decide) (by decide)

/-! ## Quoting lemmas for `C4` -/

theorem escapeChar_length_pos (c : Char) : 1 ≤ (escapeChar c).length := by
  unfold escapeChar
  split
  · simp
  · split
    · simp
    · split
      · simp
      · split
        · simp
        · split <;> simp

theorem escapeChars_length_ge (s : Chars) : s.length ≤ (escapeChars s).length := by
  induction s with
  | nil => simp [escapeChars]
  | cons c cs ih =>
    have hc := escapeChar_length_pos c
    simp only [escapeChars, List.flatMap_cons, List.length_append, List.length_cons]
    simp only [escapeChars] at ih
    omega

theorem quoteWrap_ne (s : Chars) : quoteWrap s ≠ s := by
  intro h
  have hl := congrArg List.length h
  have := escapeChars_length_ge s
  simp [quoteWrap] at hl
  omega

set_option maxHeartbeats 2000000 in
/-- `needs_quotes` is false exactly when the spec's list of conditions all
hold (numeric-like rendered by serde's acceptance, `serdeNumberOk`). -/
theorem needsQuotes_eq_false_iff (s : Chars) (dc : Char) :
    needsQuotes s (some dc) = false ↔
      (s ≠ [] ∧ rustTrim s = s ∧
       s ≠ "true".data ∧ s ≠ "false".data ∧ s ≠ "null".data ∧
       serdeNumberOk s = false ∧
       ¬(2 ≤ s.length ∧ s.head? = some '0' ∧ ∀ c ∈ s, c.isDigit = true) ∧
       (∀ c ∈ s, c ≠ ':' ∧ c ≠ '"' ∧ c ≠ '\\' ∧ c ≠ '[' ∧ c ≠ ']' ∧
         c ≠ '\x7b' ∧ c ≠ '\x7d') ∧
       (∀ c ∈ s, c ≠ '\n' ∧ c ≠ '\r' ∧ c ≠ '\t') ∧
       s.head? ≠ some '-' ∧ s.contains dc = false) := by
  unfold needsQuotes isNumericLike
  simp only [Bool.or_eq_false_iff, decide_eq_false_iff_not, List.any_eq_false,
    not_or]
  simp only [List.isEmpty_eq_false, not_not, Bool.and_eq_false_iff,
    decide_eq_false_iff_not, beq_eq_false_iff_ne, List.all_eq_true, not_or, gt_iff_lt,
    Bool.or_eq_true, decide_eq_true_eq, ne_eq, not_and_or, Nat.lt_iff_add_one_le,
    List.all_eq_false, not_forall, Classical.not_imp, and_assoc, or_assoc]
  tauto

/-- `C4` (amended) — `encode_string(s, d)` returns `s` unquoted exactly
when: `s` is non-empty, self-trimmed, not a `true`/`false`/`null`
literal, not numeric-like (where numeric-like means serde accepts the
literal as a number — the JSON number grammar within the finite-double
range — or `s` is a zero-padded digit run of length ≥ 2), contains none
of `: " \ [ ] { }`, no newline, carriage return or tab, does not start
with `-`, and does not contain the active delimiter.  Otherwise the
result is `s` quoted with the escape table. -/
theorem c4_encode_string_unquoted_iff (s : Chars) (d : Delimiter) :
    (encodeString s (some d) = s ↔
      (s ≠ [] ∧ rustTrim s = s ∧
       s ≠ "true".data ∧ s ≠ "false".data ∧ s ≠ "null".data ∧
       serdeNumberOk s = false ∧
       ¬(2 ≤ s.length ∧ s.head? = some '0' ∧ ∀ c ∈ s, c.isDigit = true) ∧
       (∀ c ∈ s, c ≠ ':' ∧ c ≠ '"' ∧ c ≠ '\\' ∧ c ≠ '[' ∧ c ≠ ']' ∧
         c ≠ '\x7b' ∧ c ≠ '\x7d') ∧
       (∀ c ∈ s, c ≠ '\n' ∧ c ≠ '\r' ∧ c ≠ '\t') ∧
       s.head? ≠ some '-' ∧ s.contains (Delimiter.asChar d) = false)) ∧
    (needsQuotes s (some (Delimiter.asChar d)) = true →
      encodeString s (some d) = quoteWrap s) := by
  constructor
  · rw [← needsQuotes_eq_false_iff s (Delimiter.asChar d)]
    unfold encodeString
    rcases hq : needsQuotes s (some (Delimiter.asChar d)) with _ | _
    · simp [hq]
    · simp [hq, quoteWrap_ne s]
  · intro hq
    unfold encodeString
    simp [hq]

/-- Witness for `C4`: `"a,b"` with the comma delimiter active needs
quotes, and `encode_string` quotes it. -/
theorem c4_encode_string_unquoted_iff_witness :
    encodeString "a,b".data (some Delimiter.comma) = quoteWrap "a,b".data :=
  (c4_encode_string_unquoted_iff "a,b".data Delimiter.comma).2 (by decide)

/-- If a key occurs in an association list, `lookupAssoc` returns a value
paired with it in the list. -/
theorem lookupAssoc_of_mem_keys (entries : List (Chars × Value)) (k : Chars)
    (h : k ∈ entries.map Prod.fst) :
    ∃ v, lookupAssoc entries k = some v ∧ (k, v) ∈ entries := by
  induction entries with
  | nil => simp at h
  | cons p rest ih =>
    rcases p with ⟨k', v'⟩
    by_cases hk : k' = k
    · subst hk
      exact ⟨v', by simp [lookupAssoc], by simp⟩
    · simp only [List.map_cons, List.mem_cons] at h
      rcases h with h | h
      · exact absurd h.symm hk
      · rcases ih h with ⟨v, hv, hm⟩
        exact ⟨v, by simpa [lookupAssoc, hk] using hv, List.mem_cons_of_mem _ hm⟩

/-- `C2` (amended) — tabular detection is insensitive to key order: if
the first item is a non-empty object with all-primitive values and every
other item is an object whose key list is merely a permutation of the
first object's key list, again with all-primitive values, then
`detect_tabular` accepts the array and returns the first object's key
list (`detect_tabular` compares entry counts and per-key membership via
`obj.get`, never insertion order). -/
theorem c2_detect_tabular_order_insensitive
    (first : List (Chars × Value)) (rest : List Value)
    (h0 : first ≠ [])
    (hp0 : ∀ p ∈ first, p.2.isPrimitive = true)
    (hrest : ∀ v ∈ rest, ∃ e, v = Value.obj e ∧
        (e.map Prod.fst).Perm (first.map Prod.fst) ∧
        ∀ p ∈ e, p.2.isPrimitive = true) :
    detectTabular (Value.obj first :: rest) = some (first.map Prod.fst) := by
  have h1 : first.isEmpty = false := by
    cases first with
    | nil => exact absurd rfl h0
    | cons a l => rfl
  have h2 : first.all (fun e => e.2.isPrimitive) = true :=
    List.all_eq_true.mpr (fun p hp => hp0 p hp)
  have h3 : rest.all (fun item =>
      match item with
      | .obj entries =>
        entries.length = (first.map Prod.fst).length &&
        (first.map Prod.fst).all (fun f =>
          match lookupAssoc entries f with
          | some v => v.isPrimitive
          | none => false)
      | _ => false) = true := by
    refine List.all_eq_true.mpr (fun v hv => ?_)
    rcases hrest v hv with ⟨e, rfl, hperm, hp⟩
    simp only [Bool.and_eq_true, decide_eq_true_eq]
    refine ⟨?_, ?_⟩
    · have := hperm.length_eq
      simpa using this
    · refine List.all_eq_true.mpr (fun f hf => ?_)
      have hfe : f ∈ e.map Prod.fst := hperm.mem_iff.mpr hf
      rcases lookupAssoc_of_mem_keys e f hfe with ⟨v, hv', hm⟩
      rw [hv']
      exact hp (f, v) hm
  unfold detectTabular
  simp only [h1, h2, Bool.false_eq_true, if_false, if_true]
  rw [h3]
  rfl

/-- Witness for `C2` (amended): the two permuted objects from the
counterexample satisfy the hypotheses, so detection yields `{a,b}`. -/
theorem c2_detect_tabular_order_insensitive_witness :
    detectTabular [.obj [("a".data, .num (.i 1)), ("b".data, .num (.i 2))],
      .obj [("b".data, .num (.i 3)), ("a".data, .num (.i 4))]] =
      some ["a".data, "b".data] := by
  have h := c2_detect_tabular_order_insensitive
    [("a".data, .num (.i 1)), ("b".data, .num (.i 2))]
    [.obj [("b".data, .num (.i 3)), ("a".data, .num (.i 4))]]
    (by simp) (by decide)
    (by
      intro v hv
      simp only [List.mem_singleton] at hv
      subst hv
      exact ⟨[("b".data, .num (.i 3)), ("a".data, .num (.i 4))], rfl,
        by decide, by decide⟩)
  simpa using h

/-- `insert_segments` errors always begin with the expansion-conflict
prefix and thus carry no `line N:` anchor. -/
theorem insertSegments_error_conflict (segments : List Chars)
    (current : List (Chars × Value)) (value : Value) (strict : Bool)
    (fullKey : Chars) (e : Chars)
    (h : insertSegments current segments value strict fullKey = .error e) :
    "expansion conflict at '".data <+: e := by
  induction segments generalizing current with
  | nil => simp [insertSegments] at h
  | cons seg restSegs ih =>
    cases restSegs with
    | nil =>
      rcases hl : lookupAssoc current seg with _ | v
      · simp only [insertSegments, hl] at h
        exact Except.noConfusion h
      · simp only [insertSegments, hl] at h
        split at h
        · simp only [Except.error.injEq] at h
          subst h
          rw [List.append_assoc]
          exact List.prefix_append _ _
        · simp at h
    | cons s2 rest2 =>
      rcases hl : lookupAssoc current seg with _ | v
      · simp only [insertSegments, hl, Bind.bind, Except.bind] at h
        rcases hr : insertSegments [] (s2 :: rest2) value strict fullKey with e' | ok <;>
          rw [hr] at h
        · simp only [Except.error.injEq] at h
          subst h
          exact ih [] hr
        · simp at h
      · rcases v with _ | _ | _ | _ | vitems | inner
        case obj =>
          simp only [insertSegments, hl, Bind.bind, Except.bind] at h
          rcases hr : insertSegments inner (s2 :: rest2) value strict fullKey with e' | ok <;>
            rw [hr] at h
          · simp only [Except.error.injEq] at h
            subst h
            exact ih inner hr
          · simp at h
        all_goals {
          simp only [insertSegments, hl] at h
          split at h
          · simp only [Except.error.injEq] at h
            subst h
            rw [List.append_assoc, List.append_assoc]
            exact List.prefix_append _ _
          · simp only [Bind.bind, Except.bind] at h
            rcases hr : insertSegments [] (s2 :: rest2) value strict fullKey with e' | ok <;>
              rw [hr] at h
            · simp only [Except.error.injEq] at h
              subst h
              exact ih [] hr
            · simp at h }

/-- `insert_expanded` errors always begin with the expansion-conflict
prefix. -/
theorem insertExpanded_error_conflict (target : List (Chars × Value))
    (dotted : Chars) (value : Value) (strict : Bool) (e : Chars)
    (h : insertExpanded target dotted value strict = .error e) :
    "expansion conflict at '".data <+: e := by
  unfold insertExpanded at h
  dsimp only at h
  split at h
  · exact Except.noConfusion h
  · exact insertSegments_error_conflict _ _ _ _ _ _ h

/-- Every error produced by the `expand_paths` walk, at any fuel, is
either the embedding's fuel token or begins with the expansion-conflict
prefix. -/
theorem mkExpFns_error_shape (fuel : Nat) :
    (∀ strict v e, (mkExpFns fuel).value strict v = .error e →
       e = fuelErr ∨ "expansion conflict at '".data <+: e) ∧
    (∀ strict entries repl e, (mkExpFns fuel).entries strict entries repl = .error e →
       e = fuelErr ∨ "expansion conflict at '".data <+: e) ∧
    (∀ strict items e, (mkExpFns fuel).items strict items = .error e →
       e = fuelErr ∨ "expansion conflict at '".data <+: e) := by
  induction fuel with
  | zero =>
    refine ⟨?_, ?_, ?_⟩
    · intro _ _ e h
      simp only [mkExpFns, expFnsZero, Except.error.injEq] at h
      exact Or.inl h.symm
    · intro _ _ _ e h
      simp only [mkExpFns, expFnsZero, Except.error.injEq] at h
      exact Or.inl h.symm
    · intro _ _ e h
      simp only [mkExpFns, expFnsZero, Except.error.injEq] at h
      exact Or.inl h.symm
  | succ fuel ih =>
    obtain ⟨ihv, ihe, ihi⟩ := ih
    refine ⟨?_, ?_, ?_⟩
    · intro strict v e h
      simp only [mkExpFns] at h
      rcases v with _ | _ | _ | _ | items | entries
      case arr =>
        simp only [Bind.bind, Except.bind] at h
        rcases hr : (mkExpFns fuel).items strict items with e' | ok <;> rw [hr] at h
        · simp only [Except.error.injEq] at h
          subst h
          exact ihi strict items e' hr
        · exact Except.noConfusion h
      case obj =>
        simp only [Bind.bind, Except.bind] at h
        rcases hr : (mkExpFns fuel).entries strict entries [] with e' | ok <;> rw [hr] at h
        · simp only [Except.error.injEq] at h
          subst h
          exact ihe strict entries [] e' hr
        · exact Except.noConfusion h
      all_goals exact Except.noConfusion h
    · intro strict entries repl e h
      simp only [mkExpFns] at h
      rcases entries with _ | ⟨⟨key, val⟩, rest⟩
      · exact Except.noConfusion h
      · simp only [Bind.bind, Except.bind] at h
        rcases hv : (mkExpFns fuel).value strict val with e' | val' <;> rw [hv] at h
        · simp only [Except.error.injEq] at h
          subst h
          exact ihv strict val e' hv
        · dsimp only at h
          by_cases hc : key.contains '.' ∧ (splitOnChar '.' key).all isIdentifierSegment
          · simp only [if_pos hc] at h
            rcases hins : insertExpanded repl key val' strict with e' | repl' <;>
              rw [hins] at h <;> dsimp only at h
            · simp only [Except.error.injEq] at h
              subst h
              exact Or.inr (insertExpanded_error_conflict _ _ _ _ _ hins)
            · exact ihe strict rest repl' e h
          · simp only [if_neg hc] at h
            exact ihe strict rest _ e h
    · intro strict items e h
      simp only [mkExpFns] at h
      rcases items with _ | ⟨item, rest⟩
      · exact Except.noConfusion h
      · simp only [Bind.bind, Except.bind] at h
        rcases hv : (mkExpFns fuel).value strict item with e' | item' <;>
          rw [hv] at h <;> dsimp only at h
        · simp only [Except.error.injEq] at h
          subst h
          exact ihv strict item e' hv
        · rcases hr : (mkExpFns fuel).items strict rest with e' | rest' <;>
            rw [hr] at h <;> dsimp only at h
          · simp only [Except.error.injEq] at h
            subst h
            exact ihi strict rest e' hr
          · exact Except.noConfusion h

/-- `line_err` output starts with `line `. -/
theorem lineErr_prefix_line (n : Nat) (msg : Chars) : "line ".data <+: lineErr n msg := by
  unfold lineErr
  rw [List.append_assoc, List.append_assoc]
  exact List.prefix_append _ _

/-- Every tokenizer error carries the `line N:` prefix. -/
theorem tokenizeLines_error_line (indent : Nat) (lines : List (Nat × Chars)) (e : Chars)
    (h : tokenizeLines indent lines = .error e) :
    "line ".data <+: e := by
  induction lines with
  | nil => simp [tokenizeLines] at h
  | cons p rest ih =>
    rcases p with ⟨idx, raw⟩
    unfold tokenizeLines at h
    dsimp only at h
    split at h
    · exact ih h
    · rcases hls : leadingSpaces raw with _ | ic <;> rw [hls] at h <;> dsimp only at h
      · simp only [Except.error.injEq] at h
        subst h
        exact lineErr_prefix_line _ _
      · split at h
        · simp only [Except.error.injEq] at h
          subst h
          exact lineErr_prefix_line _ _
        · split at h
          · exact ih h
          · simp only [Bind.bind, Except.bind] at h
            rcases hr : tokenizeLines indent rest with e' | ls <;>
              rw [hr] at h <;> dsimp only at h
            · simp only [Except.error.injEq] at h
              subst h
              exact ih hr
            · exact Except.noConfusion h

/-- `C9` (corrected) — tokenizer errors carry the `line N:` anchor, but
errors raised by the path-expansion post-pass do not: every expansion
error, at any fuel (the embedding's fuel-exhaustion token aside), begins
with `expansion conflict at '` and therefore has no `line ` prefix. -/
theorem c9_expansion_errors_lack_line_anchor_general
    (indent : Nat) (lines : List (Nat × Chars)) (e1 : Chars)
    (fuel : Nat) (strict : Bool) (v : Value) (e2 : Chars)
    (h1 : tokenizeLines indent lines = .error e1)
    (h2 : (mkExpFns fuel).value strict v = .error e2) (hf : e2 ≠ fuelErr) :
    "line ".data <+: e1 ∧
    "expansion conflict at '".data <+: e2 ∧ ¬ ("line ".data <+: e2) := by
  have hp := (mkExpFns_error_shape fuel).1 strict v e2 h2
  rcases hp with hp | hp
  · exact absurd hp hf
  · refine ⟨tokenizeLines_error_line indent lines e1 h1, hp, ?_⟩
    intro hl
    have hll := List.prefix_of_prefix_length_le hl hp (by decide)
    revert hll
    decide

/-- Witness for `C9` (corrected): a tab-indented line yields a
`line 1:`-anchored tokenizer error, while expanding
`{"a": 2, "a.b": 1}` under strict mode yields an expansion-conflict
error with no line anchor. -/
theorem c9_expansion_errors_lack_line_anchor_general_witness :
    "line ".data <+: "line 1: tabs are not allowed for indentation".data ∧
    "expansion conflict at '".data <+:
      "expansion conflict at 'a.b': expected object but found Number(2)".data ∧
    ¬ ("line ".data <+:
      "expansion conflict at 'a.b': expected object but found Number(2)".data) :=
  c9_expansion_errors_lack_line_anchor_general 2 [(0, "\ta: 1".data)]
    "line 1: tabs are not allowed for indentation".data 5 true
    (.obj [("a".data, .num (.i 2)), ("a.b".data, .num (.i 1))])
    "expansion conflict at 'a.b': expected object but found Number(2)".data
    rfl rfl (by decide)

/-- A decimal digit rendered through `Char.ofNat` is an ASCII digit. -/
theorem digitChar_isDigit (d : Nat) (h : d < 10) :
    (Char.ofNat (48 + d)).isDigit = true := by
  interval_cases d <;> decide

/-- A nonzero decimal digit rendered through `Char.ofNat` is not `0`. -/
theorem digitChar_ne_zero (d : Nat) (h : d < 10) (h0 : d ≠ 0) :
    Char.ofNat (48 + d) ≠ '0' := by
  interval_cases d <;> first | (exact absurd rfl h0) | decide

/-- Characters of `natDigitsAux` come from the accumulator or are digits. -/
theorem natDigitsAux_mem (fuel : Nat) :
    ∀ n acc c, c ∈ natDigitsAux fuel n acc → c ∈ acc ∨ c.isDigit = true := by
  induction fuel with
  | zero => intro n acc c hc; exact Or.inl hc
  | succ fuel ih =>
    intro n acc c hc
    unfold natDigitsAux at hc
    split at hc
    · rcases List.mem_cons.mp hc with h | h
      · subst h
        exact Or.inr (digitChar_isDigit n (by omega))
      · exact Or.inl h
    · rcases ih (n / 10) _ c hc with h | h
      · rcases List.mem_cons.mp h with h | h
        · subst h
          exact Or.inr (digitChar_isDigit (n % 10) (Nat.mod_lt n (by omega)))
        · exact Or.inl h
      · exact Or.inr h

/-- `natDigitsAux` never returns the empty list when it has fuel. -/
theorem natDigitsAux_ne_nil (fuel : Nat) :
    ∀ n acc, acc ≠ [] ∨ fuel ≠ 0 → natDigitsAux fuel n acc ≠ [] := by
  induction fuel with
  | zero =>
    intro n acc h
    rcases h with h | h
    · simpa [natDigitsAux] using h
    · exact absurd rfl h
  | succ fuel ih =>
    intro n acc h
    unfold natDigitsAux
    split
    · simp
    · exact ih (n / 10) _ (Or.inl (by simp))

/-- With enough fuel, the first digit emitted for a nonzero number is not
`0`. -/
theorem natDigitsAux_head_ne_zero (fuel : Nat) :
    ∀ n acc c, n ≠ 0 → n < 10 ^ fuel →
      (natDigitsAux fuel n acc).head? = some c → c ≠ '0' := by
  induction fuel with
  | zero =>
    intro n acc c hn hfuel
    simp at hfuel
    omega
  | succ fuel ih =>
    intro n acc c hn hfuel hc
    unfold natDigitsAux at hc
    split at hc
    · simp only [List.head?_cons, Option.some.injEq] at hc
      subst hc
      exact digitChar_ne_zero n (by omega) hn
    · refine ih (n / 10) _ c ?_ ?_ hc
      · omega
      · rw [pow_succ] at hfuel
        omega

/-- `getLast?` ignores a new head on a non-empty list. -/
theorem getLast_cons_ne_nil (c : Char) (l : Chars) (h : l ≠ []) :
    (c :: l).getLast? = l.getLast? := by
  cases l with
  | nil => exact absurd rfl h
  | cons b t => exact List.getLast?_cons_cons

/-- The last digit emitted is determined by the accumulator when the
accumulator is non-empty. -/
theorem natDigitsAux_getLast_acc (fuel : Nat) :
    ∀ n acc, acc ≠ [] → (natDigitsAux fuel n acc).getLast? = acc.getLast? := by
  induction fuel with
  | zero => intro n acc _; rfl
  | succ fuel ih =>
    intro n acc hacc
    unfold natDigitsAux
    split
    · exact getLast_cons_ne_nil _ _ hacc
    · rw [ih (n / 10) _ (by simp)]
      exact getLast_cons_ne_nil _ _ hacc

/-- `natChars` is non-empty. -/
theorem natChars_ne_nil (n : Nat) : natChars n ≠ [] :=
  natDigitsAux_ne_nil (n + 1) n [] (Or.inr (by omega))

/-- Every character of `natChars n` is an ASCII digit. -/
theorem natChars_all_digits (n : Nat) : ∀ c ∈ natChars n, c.isDigit = true := by
  intro c hc
  rcases natDigitsAux_mem (n + 1) n [] c hc with h | h
  · simp at h
  · exact h

/-- The leading character of `natChars n` for nonzero `n` is not `0`. -/
theorem natChars_head_ne_zero (n : Nat) (hn : n ≠ 0) (c : Char)
    (hc : (natChars n).head? = some c) : c ≠ '0' :=
  natDigitsAux_head_ne_zero (n + 1) n [] c hn
    (lt_of_lt_of_le (Nat.lt_pow_self (by omega) n) (Nat.pow_le_pow_right (by omega) (by omega))) hc

/-- The last character of `natChars n` is the units digit. -/
theorem natChars_getLast (n : Nat) :
    (natChars n).getLast? = some (Char.ofNat (48 + n % 10)) := by
  unfold natChars natDigitsAux
  split
  · simp only [List.getLast?_singleton, Option.some.injEq]
    congr 1
    omega
  · rw [natDigitsAux_getLast_acc n (n / 10) _ (by simp)]
    rfl

/-- `take` keeps the head when it takes at least one element. -/
theorem head_take_ne_zero (l : Chars) (n : Nat) (h : n ≠ 0) :
    (l.take n).head? = l.head? := by
  cases l <;> cases n <;> simp_all

/-- The `while mantissa % 10 == 0` loop of `canonicalize_number`: with
enough fuel the stripped mantissa is nonzero and not divisible by ten. -/
theorem stripTensAux_fst_spec (fuel : Nat) :
    ∀ n, n ≠ 0 → n < fuel →
      (stripTensAux fuel n).1 ≠ 0 ∧ (stripTensAux fuel n).1 % 10 ≠ 0 := by
  induction fuel with
  | zero => intro n _ h; omega
  | succ fuel ih =>
    intro n hn hlt
    unfold stripTensAux
    split
    · rcases hst : stripTensAux fuel (n / 10) with ⟨m, k⟩
      have hd : n / 10 ≠ 0 := by omega
      have hlt' : n / 10 < fuel := by omega
      have := ih (n / 10) hd hlt'
      rw [hst] at this
      simpa using this
    · simp only
      constructor
      · exact hn
      · omega

/-- An ASCII digit is none of the special characters of a canonical
number rendering. -/
theorem isDigit_ne_special (c : Char) (h : c.isDigit = true) :
    c ≠ 'e' ∧ c ≠ 'E' ∧ c ≠ '-' ∧ c ≠ '.' := by
  refine ⟨?_, ?_, ?_, ?_⟩ <;> intro hc <;> subst hc <;> exact absurd h (by decide)

/-- Canonical-form facts lift from an unsigned digit body to the signed
rendering. -/
theorem signedBody_spec (sgn body : Chars) (hsgn : sgn = ['-'] ∨ sgn = [])
    (hP1 : ∀ c ∈ body, c.isDigit = true ∨ c = '.')
    (hP2 : body.head? = some '0' → ∀ cc, body.tail.head? = some cc → cc = '.')
    (hP3 : '.' ∈ body → body.getLast? ≠ some '0')
    (h0 : ∃ h0, body.head? = some h0 ∧ h0 ≠ '-') :
    (∀ c ∈ sgn ++ body, c ≠ 'e' ∧ c ≠ 'E') ∧
    ((if (sgn ++ body).head? = some '-' then (sgn ++ body).tail
        else sgn ++ body).head? = some '0' →
      ∀ cc, (if (sgn ++ body).head? = some '-' then (sgn ++ body).tail
        else sgn ++ body).tail.head? = some cc → cc = '.') ∧
    ('.' ∈ sgn ++ body → (sgn ++ body).getLast? ≠ some '0') := by
  obtain ⟨hd, hhd, hhdne⟩ := h0
  have hbody_ne : body ≠ [] := by
    intro hb
    rw [hb] at hhd
    exact Option.noConfusion hhd
  refine ⟨?_, ?_, ?_⟩
  · intro c hc
    rcases List.mem_append.mp hc with h | h
    · rcases hsgn with rfl | rfl
      · simp only [List.mem_singleton] at h
        subst h
        exact ⟨by decide, by decide⟩
      · simp at h
    · rcases hP1 c h with h | h
      · exact ⟨(isDigit_ne_special c h).1, (isDigit_ne_special c h).2.1⟩
      · subst h
        exact ⟨by decide, by decide⟩
  · rcases hsgn with rfl | rfl
    · simp only [List.cons_append, List.nil_append, List.head?_cons,
        Option.some.injEq, if_pos rfl, List.tail_cons]
      exact hP2
    · simp only [List.nil_append]
      rw [if_neg (by rw [hhd]; simp only [Option.some.injEq]; exact hhdne)]
      exact hP2
  · intro hdot
    have hdotb : '.' ∈ body := by
      rcases hsgn with rfl | rfl
      · rcases List.mem_append.mp hdot with h | h
        · simp at h
        · exact h
      · simpa using hdot
    rcases hsgn with rfl | rfl
    · rw [List.getLast?_append_of_ne_nil _ hbody_ne]
      exact hP3 hdotb
    · simpa using hP3 hdotb

/-- `BigDecimal` plain rendering of a mantissa not divisible by ten
splits into a sign and a digit body in canonical form. -/
theorem plainDecimal_body (m e : Int) (hm : m ≠ 0) (hm10 : m.natAbs % 10 ≠ 0) :
    ∃ body : Chars,
      plainDecimal m e = (if m < 0 then ['-'] else []) ++ body ∧
      (∀ c ∈ body, c.isDigit = true ∨ c = '.') ∧
      (body.head? = some '0' → ∀ cc, body.tail.head? = some cc → cc = '.') ∧
      ('.' ∈ body → body.getLast? ≠ some '0') ∧
      (∃ h0, body.head? = some h0 ∧ h0 ≠ '-') := by
  have hnab : m.natAbs ≠ 0 := Int.natAbs_ne_zero.mpr hm
  have hne := natChars_ne_nil m.natAbs
  have hdig := natChars_all_digits m.natAbs
  have hlast := natChars_getLast m.natAbs
  have hlastne : Char.ofNat (48 + m.natAbs % 10) ≠ '0' :=
    digitChar_ne_zero _ (Nat.mod_lt _ (by omega)) hm10
  rcases hds : natChars m.natAbs with _ | ⟨d0, dtl⟩
  · exact absurd hds hne
  have hd0 : d0 ≠ '0' := natChars_head_ne_zero m.natAbs hnab d0 (by rw [hds]; rfl)
  have hd0dig : d0.isDigit = true := hdig d0 (by rw [hds]; exact List.mem_cons_self _ _)
  rw [hds] at hdig hlast
  unfold plainDecimal
  dsimp only
  rw [hds]
  by_cases he : (0 : Int) ≤ e
  · refine ⟨(d0 :: dtl) ++ List.replicate e.toNat '0', ?_, ?_, ?_, ?_, ?_⟩
    · rw [if_pos he, List.append_assoc]
    · intro c hc
      rcases List.mem_append.mp hc with h | h
      · exact Or.inl (hdig c h)
      · rw [List.eq_of_mem_replicate h]
        exact Or.inl (by decide)
    · intro hhd
      simp only [List.cons_append, List.head?_cons, Option.some.injEq] at hhd
      exact absurd hhd hd0
    · intro hdot
      exfalso
      rcases List.mem_append.mp hdot with h | h
      · exact absurd (hdig '.' h) (by decide)
      · exact absurd (List.eq_of_mem_replicate h) (by decide)
    · exact ⟨d0, by simp, (isDigit_ne_special d0 hd0dig).2.2.1⟩
  · rw [if_neg he]
    by_cases hlen : (d0 :: dtl).length ≤ (-e).toNat
    · refine ⟨'0' :: '.' :: (List.replicate ((-e).toNat - (d0 :: dtl).length) '0' ++
        (d0 :: dtl)), ?_, ?_, ?_, ?_, ?_⟩
      · rw [if_pos hlen]
      · intro c hc
        rcases List.mem_cons.mp hc with rfl | hc
        · exact Or.inl (by decide)
        rcases List.mem_cons.mp hc with rfl | hc
        · exact Or.inr rfl
        rcases List.mem_append.mp hc with h | h
        · rw [List.eq_of_mem_replicate h]
          exact Or.inl (by decide)
        · exact Or.inl (hdig c h)
      · intro _ cc hcc
        simp only [List.tail_cons, List.head?_cons, Option.some.injEq] at hcc
        exact hcc.symm
      · intro _
        rw [getLast_cons_ne_nil _ _ (by simp), getLast_cons_ne_nil _ _ (by simp),
          List.getLast?_append_of_ne_nil _ (by simp), hlast]
        intro hcon
        exact hlastne (Option.some.inj hcon)
      · exact ⟨'0', rfl, by decide⟩
    · have hk1 : 1 ≤ (-e).toNat := by omega
      have hi1 : 1 ≤ (d0 :: dtl).length - (-e).toNat := by omega
      have hdropne : (d0 :: dtl).drop ((d0 :: dtl).length - (-e).toNat) ≠ [] := by
        intro hdrop
        have := congrArg List.length hdrop
        simp only [List.length_drop, List.length_nil] at this
        omega
      refine ⟨(d0 :: dtl).take ((d0 :: dtl).length - (-e).toNat) ++
        '.' :: (d0 :: dtl).drop ((d0 :: dtl).length - (-e).toNat), ?_, ?_, ?_, ?_, ?_⟩
      · rw [if_neg hlen]
      · intro c hc
        rcases List.mem_append.mp hc with h | h
        · exact Or.inl (hdig c (List.take_subset _ _ h))
        rcases List.mem_cons.mp h with rfl | h
        · exact Or.inr rfl
        · exact Or.inl (hdig c (List.drop_subset _ _ h))
      · intro hhd
        rw [List.head?_append, head_take_ne_zero _ _ (by omega)] at hhd
        simp only [List.head?_cons, Option.or_some, Option.some.injEq] at hhd
        exact absurd hhd hd0
      · intro _
        have hlast2 : ((d0 :: dtl).drop ((d0 :: dtl).length - (-e).toNat)).getLast? =
            (d0 :: dtl).getLast? := by
          conv_rhs =>
            rw [← List.take_append_drop ((d0 :: dtl).length - (-e).toNat) (d0 :: dtl)]
          rw [List.getLast?_append_of_ne_nil _ hdropne]
        rw [List.getLast?_append_of_ne_nil _ (by simp),
          getLast_cons_ne_nil _ _ hdropne, hlast2, hlast]
        intro hcon
        exact hlastne (Option.some.inj hcon)
      · refine ⟨d0, ?_, (isDigit_ne_special d0 hd0dig).2.2.1⟩
        rw [List.head?_append, head_take_ne_zero _ _ (by omega)]
        rfl

/-- The sign prefix is either a minus sign or empty. -/
theorem signCases (c : Prop) [Decidable c] :
    (if c then (['-'] : Chars) else []) = ['-'] ∨
      (if c then (['-'] : Chars) else []) = [] := by
  split
  · exact Or.inl rfl
  · exact Or.inr rfl

/-- A zero mantissa renders as `0` at every exponent. -/
theorem canonicalizeNumber_zero (e' : Int) :
    canonicalizeNumber (NumJson.f 0 e') = ['0'] := by
  unfold canonicalizeNumber
  exact if_pos rfl

/-- `C8` — the rendering `canonicalize_number` emits contains no exponent
marker `e`/`E`; after an optional sign, a leading `0` is only ever
followed by a decimal point (no zero-padded integer part); a float with
zero mantissa (negative zero included) renders as `0`; and a rendering
that contains a decimal point never ends in `0` (fractional trailing
zeros are trimmed). -/
theorem c8_number_canonical_form (n : NumJson) (e0 : Int) :
    (∀ c ∈ canonicalizeNumber n, c ≠ 'e' ∧ c ≠ 'E') ∧
    ((if (canonicalizeNumber n).head? = some '-' then (canonicalizeNumber n).tail
        else canonicalizeNumber n).head? = some '0' →
      ∀ cc, (if (canonicalizeNumber n).head? = some '-' then (canonicalizeNumber n).tail
        else canonicalizeNumber n).tail.head? = some cc → cc = '.') ∧
    canonicalizeNumber (NumJson.f 0 e0) = ['0'] ∧
    ('.' ∈ canonicalizeNumber n → (canonicalizeNumber n).getLast? ≠ some '0') := by
  rcases n with i | ⟨m, e⟩
  · have hc : canonicalizeNumber (NumJson.i i) =
        (if i < 0 then ['-'] else []) ++ natChars i.natAbs := by
      show intChars i = _
      unfold intChars
      split <;> simp
    have hP1 : ∀ c ∈ natChars i.natAbs, c.isDigit = true ∨ c = '.' :=
      fun c hcmem => Or.inl (natChars_all_digits i.natAbs c hcmem)
    have hP2 : (natChars i.natAbs).head? = some '0' →
        ∀ cc, (natChars i.natAbs).tail.head? = some cc → cc = '.' := by
      intro hhd cc hcc
      by_cases hz : i.natAbs = 0
      · rw [hz, show natChars 0 = ['0'] from rfl] at hcc
        simp at hcc
      · exact absurd rfl (natChars_head_ne_zero i.natAbs hz '0' hhd)
    have hP3 : '.' ∈ natChars i.natAbs → (natChars i.natAbs).getLast? ≠ some '0' := by
      intro hdot
      exact absurd (natChars_all_digits i.natAbs '.' hdot) (by decide)
    have h0 : ∃ h0, (natChars i.natAbs).head? = some h0 ∧ h0 ≠ '-' := by
      rcases hds : natChars i.natAbs with _ | ⟨d0, dtl⟩
      · exact absurd hds (natChars_ne_nil i.natAbs)
      · refine ⟨d0, rfl, ?_⟩
        have : d0.isDigit = true := by
          refine natChars_all_digits i.natAbs d0 ?_
          rw [hds]
          exact List.mem_cons_self _ _
        exact (isDigit_ne_special d0 this).2.2.1
    obtain ⟨s1, s2, s3⟩ := signedBody_spec (if i < 0 then ['-'] else [])
      (natChars i.natAbs) (signCases _) hP1 hP2 hP3 h0
    rw [hc]
    exact ⟨s1, s2, canonicalizeNumber_zero e0, s3⟩
  · by_cases hm : m = 0
    · subst hm
      rw [canonicalizeNumber_zero e]
      refine ⟨by decide, by decide, canonicalizeNumber_zero e0, by decide⟩
    · have hnab : m.natAbs ≠ 0 := Int.natAbs_ne_zero.mpr hm
      rcases hstp : stripTens m.natAbs with ⟨mstr, k⟩
      have hst := stripTensAux_fst_spec (m.natAbs + 1) m.natAbs hnab (by omega)
      rw [show stripTensAux (m.natAbs + 1) m.natAbs = stripTens m.natAbs from rfl,
        hstp] at hst
      obtain ⟨hm1, hm2⟩ := hst
      have hc : canonicalizeNumber (NumJson.f m e) =
          plainDecimal (if m < 0 then -(mstr : Int) else (mstr : Int)) (e + (k : Int)) := by
        unfold canonicalizeNumber
        dsimp only
        rw [if_neg hm, hstp]
      have hmm : (if m < 0 then -(mstr : Int) else (mstr : Int)) ≠ 0 := by
        split
        · simp only [ne_eq, neg_eq_zero, Int.natCast_eq_zero]
          exact hm1
        · simp only [ne_eq, Int.natCast_eq_zero]
          exact hm1
      have hmabs : (if m < 0 then -(mstr : Int) else (mstr : Int)).natAbs = mstr := by
        split <;> simp
      have hmm10 : (if m < 0 then -(mstr : Int) else (mstr : Int)).natAbs % 10 ≠ 0 := by
        rw [hmabs]
        exact hm2
      obtain ⟨body, heq, hP1, hP2, hP3, h0⟩ :=
        plainDecimal_body (if m < 0 then -(mstr : Int) else (mstr : Int))
          (e + (k : Int)) hmm hmm10
      obtain ⟨s1, s2, s3⟩ := signedBody_spec
        (if (if m < 0 then -(mstr : Int) else (mstr : Int)) < 0 then ['-'] else [])
        body (signCases _) hP1 hP2 hP3 h0
      rw [hc, heq]
      exact ⟨s1, s2, canonicalizeNumber_zero e0, s3⟩

/-- Witness for `C8`: `1.5` contains a decimal point and does not end in
`0`. -/
theorem c8_number_canonical_form_witness :
    '.' ∈ canonicalizeNumber (NumJson.f 15 (-1)) ∧
    (canonicalizeNumber (NumJson.f 15 (-1))).getLast? ≠ some '0' :=
  ⟨by decide, (c8_number_canonical_form (NumJson.f 15 (-1)) 0).2.2.2 (by decide)⟩

/-- `stringify_primitive` succeeds on every primitive value. -/
theorem stringifyPrimitive_ok (opts : EncoderOptions) (v : Value)
    (d : Option Delimiter) (h : v.isPrimitive = true) :
    ∃ s, stringifyPrimitive opts v d = .ok s := by
  rcases v with _ | b | n | s | items | entries
  · exact ⟨_, rfl⟩
  · exact ⟨_, rfl⟩
  · exact ⟨_, rfl⟩
  · exact ⟨_, rfl⟩
  · simp [Value.isPrimitive] at h
  · simp [Value.isPrimitive] at h

/-- `mapM` over `Except` succeeds when every element succeeds. -/
theorem mapM_ok {α β : Type} (f : α → Except Chars β) (l : List α)
    (h : ∀ a ∈ l, ∃ b, f a = .ok b) :
    ∃ bs, l.mapM f = .ok bs := by
  induction l with
  | nil => exact ⟨[], rfl⟩
  | cons a rest ih =>
    obtain ⟨b, hb⟩ := h a (List.mem_cons_self _ _)
    obtain ⟨bs, hbs⟩ := ih (fun x hx => h x (List.mem_cons_of_mem _ hx))
    refine ⟨b :: bs, ?_⟩
    rw [List.mapM_cons, hb, hbs]
    rfl

/-- Inversion of a successful `detect_tabular`. -/
theorem detectTabular_eq_some (items : List Value) (fields : List Chars)
    (h : detectTabular items = some fields) :
    ∃ firstEntries rest, items = Value.obj firstEntries :: rest ∧
      fields = firstEntries.map Prod.fst ∧
      (∀ p ∈ firstEntries, p.2.isPrimitive = true) ∧
      ∀ item ∈ rest, ∃ entries, item = Value.obj entries ∧
        ∀ f ∈ fields, ∃ cv, lookupAssoc entries f = some cv ∧ cv.isPrimitive = true := by
  rcases items with _ | ⟨first, rest⟩
  · simp [detectTabular] at h
  rcases first with _ | b | n | s | items2 | firstEntries
  case obj =>
    simp only [detectTabular] at h
    split at h
    · exact Option.noConfusion h
    split at h
    case isTrue hall =>
      split at h
      case isTrue hrest =>
        refine ⟨firstEntries, rest, rfl, (Option.some.inj h).symm, ?_, ?_⟩
        · intro p hp
          exact List.all_eq_true.mp hall p hp
        · intro item hitem
          have hr := List.all_eq_true.mp hrest item hitem
          rcases item with _ | _ | _ | _ | _ | entries
          case obj =>
            refine ⟨entries, rfl, ?_⟩
            simp only [Bool.and_eq_true, decide_eq_true_eq] at hr
            intro f hf
            have hf2 := List.all_eq_true.mp hr.2 f
              (by rw [← (Option.some.inj h)] at hf; exact hf)
            rcases hlk : lookupAssoc entries f with _ | cv
            · rw [hlk] at hf2
              simp at hf2
            · rw [hlk] at hf2
              exact ⟨cv, rfl, hf2⟩
          all_goals simp at hr
      case isFalse _ => exact Option.noConfusion h
    case isFalse _ => exact Option.noConfusion h
  all_goals simp [detectTabular] at h

/-- `emit_inline_array` succeeds when all items are primitive. -/
theorem emitInlineArray_ok (opts : EncoderOptions) (key : Option Chars)
    (items : List Value) (delim : Delimiter) (ctx : ArrayContext)
    (h : items.all Value.isPrimitive = true) :
    ∃ out, emitInlineArray opts key items delim ctx = .ok out := by
  unfold emitInlineArray
  dsimp only
  split
  · exact ⟨_, rfl⟩
  · obtain ⟨vs, hvs⟩ := mapM_ok (fun v => stringifyPrimitive opts v (some delim)) items
      (fun v hv => stringifyPrimitive_ok opts v (some delim) (List.all_eq_true.mp h v hv))
    simp only [Bind.bind, Except.bind, hvs]
    exact ⟨_, rfl⟩

/-- `emit_tabular_array` succeeds on a detected tabular array. -/
theorem emitTabularArray_ok (opts : EncoderOptions) (key : Option Chars)
    (items : List Value) (fields : List Chars) (delim : Delimiter) (ctx : ArrayContext)
    (h : detectTabular items = some fields) :
    ∃ out, emitTabularArray opts key items fields delim ctx = .ok out := by
  obtain ⟨fe, rest, rfl, hfields, hall, hrest⟩ := detectTabular_eq_some _ fields h
  have hcells : ∀ entries : List (Chars × Value),
      (∀ f ∈ fields, ∃ cv, lookupAssoc entries f = some cv ∧ cv.isPrimitive = true) →
      ∃ cells, fields.mapM (fun field =>
        match lookupAssoc entries field with
        | some cell => stringifyPrimitive opts cell (some delim)
        | none => .error "field must exist".data) = .ok cells := by
    intro entries hlk
    refine mapM_ok _ fields (fun f hf => ?_)
    obtain ⟨cv, hcv, hprim⟩ := hlk f hf
    rw [hcv]
    exact stringifyPrimitive_ok opts cv (some delim) hprim
  have hrows : ∃ rows, (Value.obj fe :: rest).mapM (fun item =>
      match item with
      | Value.obj entries => do
        let cells ← fields.mapM (fun field =>
          match lookupAssoc entries field with
          | some cell => stringifyPrimitive opts cell (some delim)
          | none => .error "field must exist".data)
        Except.ok (indentChars opts ctx.rowDepth ++ List.intercalate delim.separator cells)
      | _ => Except.error "tabular detection failed due to non-object row".data) =
      .ok rows := by
    refine mapM_ok _ _ (fun item hitem => ?_)
    rcases List.mem_cons.mp hitem with rfl | hitem
    · obtain ⟨cells, hc⟩ := hcells fe (fun f hf => by
        obtain ⟨cv, hcv, hmem⟩ := lookupAssoc_of_mem_keys fe f (hfields ▸ hf)
        exact ⟨cv, hcv, hall (f, cv) hmem⟩)
      simp only [Bind.bind, Except.bind, hc]
      exact ⟨_, rfl⟩
    · obtain ⟨entries, rfl, hlk⟩ := hrest item hitem
      obtain ⟨cells, hc⟩ := hcells entries hlk
      simp only [Bind.bind, Except.bind, hc]
      exact ⟨_, rfl⟩
  obtain ⟨rows, hr⟩ := hrows
  unfold emitTabularArray
  dsimp only
  rw [hr]
  exact ⟨_, rfl⟩

/-- `emit_array_of_arrays` succeeds when every item is an array of
primitives. -/
theorem emitArrayOfArrays_ok (opts : EncoderOptions) (key : Option Chars)
    (items : List Value) (delim : Delimiter) (ctx : ArrayContext)
    (h : isArrayOfPrimitiveArrays items = true) :
    ∃ out, emitArrayOfArrays opts key items delim ctx = .ok out := by
  unfold isArrayOfPrimitiveArrays at h
  simp only [Bool.and_eq_true] at h
  have hrows : ∃ rows, items.mapM (fun inner =>
      match inner with
      | Value.arr innerItems => do
        if innerItems.isEmpty then
          Except.ok (indentChars opts ctx.rowDepth ++ "- ".data ++
            formatHeader none innerItems.length delim none)
        else do
          let values ← innerItems.mapM (fun v => stringifyPrimitive opts v (some delim))
          Except.ok (indentChars opts ctx.rowDepth ++ "- ".data ++
            formatHeader none innerItems.length delim none ++
            ' ' :: List.intercalate delim.separator values)
      | _ => Except.error "expected inner array".data) = .ok rows := by
    refine mapM_ok _ _ (fun item hitem => ?_)
    have hi := List.all_eq_true.mp h.2 item hitem
    rcases item with _ | _ | _ | _ | innerItems | _
    case arr =>
      dsimp only
      by_cases hie : innerItems.isEmpty = true
      · simp only [if_pos hie]
        exact ⟨_, rfl⟩
      · simp only [if_neg hie]
        obtain ⟨vs, hvs⟩ := mapM_ok (fun v => stringifyPrimitive opts v (some delim))
          innerItems (fun v hv =>
            stringifyPrimitive_ok opts v (some delim) (List.all_eq_true.mp hi v hv))
        simp only [Bind.bind, Except.bind, hvs]
        exact ⟨_, rfl⟩
    all_goals simp at hi
  obtain ⟨rows, hr⟩ := hrows
  unfold emitArrayOfArrays
  dsimp only
  rw [hr]
  exact ⟨_, rfl⟩

/-- An `Except` that is never an error is an `ok`. -/
theorem exists_ok_of_ne_error {α β : Type} (x : Except α β)
    (h : ∀ e, x ≠ .error e) : ∃ out, x = .ok out := by
  cases x with
  | error e => exact absurd rfl (h e)
  | ok out => exact ⟨out, rfl⟩

set_option maxHeartbeats 1000000 in
/-- Totality of the mutually recursive encoder productions, by strong
induction on the well-founded measure that also proves their
termination. -/
theorem encoderTotalAux (N : Nat) :
    (∀ opts siblings remaining depth, 4 * sizeOf remaining ≤ N →
       ∃ out, encodeFieldsAux opts siblings remaining depth = .ok out) ∧
    (∀ opts siblings key value depth, 4 * sizeOf value + 3 ≤ N →
       ∃ out, encodeFoldedField opts siblings key value depth = .ok out) ∧
    (∀ opts key v depth, 4 * sizeOf v + 1 ≤ N →
       ∃ out, encodeNamedValue opts key v depth = .ok out) ∧
    (∀ opts key items ctx, 4 * sizeOf items + 2 ≤ N →
       ∃ out, encodeArray opts key items ctx = .ok out) ∧
    (∀ opts items rowDepth, 4 * sizeOf items ≤ N →
       ∃ out, generalListItems opts items rowDepth = .ok out) ∧
    (∀ opts entries depth, 4 * sizeOf entries + 3 ≤ N →
       ∃ out, encodeObjectListItem opts entries depth = .ok out) ∧
    (∀ opts siblings firstKey firstValue depth, 4 * sizeOf firstValue + 2 ≤ N →
       ∃ out, encodeListFirstPair opts siblings firstKey firstValue depth = .ok out) := by
  induction N using Nat.strong_induction_on with
  | _ N ih =>
    refine ⟨?_, ?_, ?_, ?_, ?_, ?_, ?_⟩
    · intro opts siblings remaining depth hN
      rcases remaining with _ | ⟨⟨key, value⟩, rest⟩
      · exact ⟨[], by simp [encodeFieldsAux]⟩
      · simp only [List.cons.sizeOf_spec, Prod.mk.sizeOf_spec] at hN
        obtain ⟨l1, h1⟩ := (ih (4 * sizeOf value + 3) (by omega)).2.1
          opts siblings key value depth le_rfl
        obtain ⟨l2, h2⟩ := (ih (4 * sizeOf rest) (by omega)).1
          opts siblings rest depth le_rfl
        refine ⟨l1 ++ l2, ?_⟩
        simp only [encodeFieldsAux, Bind.bind, Except.bind]
        rw [h1]
        dsimp only
        rw [h2]
    · intro opts siblings key value depth hN
      rcases hfk : foldKey opts key value siblings with ⟨fkey, fval⟩
      have hle := foldKey_value_sizeOf_le opts key value siblings
      rw [hfk] at hle
      simp only at hle
      obtain ⟨out, hout⟩ := (ih (4 * sizeOf fval + 1) (by omega)).2.2.1
        opts fkey fval depth le_rfl
      refine ⟨out, ?_⟩
      simp only [encodeFoldedField, hfk]
      exact hout
    · intro opts key v depth hN
      rcases v with _ | b | n | s | items | entries
      · obtain ⟨r, hr⟩ := stringifyPrimitive_ok opts Value.null
          (some opts.documentDelimiter) rfl
        refine exists_ok_of_ne_error _ (fun e hE => ?_)
        simp only [encodeNamedValue, Bind.bind, Except.bind, hr] at hE
        exact Except.noConfusion hE
      · obtain ⟨r, hr⟩ := stringifyPrimitive_ok opts (Value.bool b)
          (some opts.documentDelimiter) rfl
        refine exists_ok_of_ne_error _ (fun e hE => ?_)
        simp only [encodeNamedValue, Bind.bind, Except.bind, hr] at hE
        exact Except.noConfusion hE
      · obtain ⟨r, hr⟩ := stringifyPrimitive_ok opts (Value.num n)
          (some opts.documentDelimiter) rfl
        refine exists_ok_of_ne_error _ (fun e hE => ?_)
        simp only [encodeNamedValue, Bind.bind, Except.bind, hr] at hE
        exact Except.noConfusion hE
      · obtain ⟨r, hr⟩ := stringifyPrimitive_ok opts (Value.str s)
          (some opts.documentDelimiter) rfl
        refine exists_ok_of_ne_error _ (fun e hE => ?_)
        simp only [encodeNamedValue, Bind.bind, Except.bind, hr] at hE
        exact Except.noConfusion hE
      · simp only [Value.arr.sizeOf_spec] at hN
        obtain ⟨out, ho⟩ := (ih (4 * sizeOf items + 2) (by omega)).2.2.2.1
          opts (some key) items (ArrayContext.normal depth) le_rfl
        refine ⟨out, ?_⟩
        simp only [encodeNamedValue]
        exact ho
      · simp only [Value.obj.sizeOf_spec] at hN
        by_cases he : entries.isEmpty = true
        · refine exists_ok_of_ne_error _ (fun e hE => ?_)
          simp only [encodeNamedValue, if_pos he] at hE
          exact Except.noConfusion hE
        · obtain ⟨rest, hr⟩ := (ih (4 * sizeOf entries) (by omega)).1
            opts entries entries (depth + 1) le_rfl
          refine exists_ok_of_ne_error _ (fun e hE => ?_)
          simp only [encodeNamedValue, if_neg he, Bind.bind, Except.bind, hr] at hE
          exact Except.noConfusion hE
    · intro opts key items ctx hN
      by_cases hp : items.all Value.isPrimitive = true
      · obtain ⟨out, ho⟩ := emitInlineArray_ok opts key items opts.documentDelimiter ctx hp
        refine ⟨out, ?_⟩
        simp only [encodeArray]
        rw [if_pos hp]
        exact ho
      · rcases hdt : detectTabular items with _ | fields
        · by_cases ha : isArrayOfPrimitiveArrays items = true
          · obtain ⟨out, ho⟩ :=
              emitArrayOfArrays_ok opts key items opts.documentDelimiter ctx ha
            refine ⟨out, ?_⟩
            simp only [encodeArray]
            rw [if_neg hp, hdt]
            dsimp only
            rw [if_pos ha]
            exact ho
          · obtain ⟨body, hb⟩ := (ih (4 * sizeOf items) (by omega)).2.2.2.2.1
              opts items ctx.rowDepth le_rfl
            refine exists_ok_of_ne_error _ (fun e hE => ?_)
            simp only [encodeArray] at hE
            rw [if_neg hp, hdt] at hE
            dsimp only at hE
            rw [if_neg ha] at hE
            simp only [Bind.bind, Except.bind, hb] at hE
            exact Except.noConfusion hE
        · obtain ⟨out, ho⟩ :=
            emitTabularArray_ok opts key items fields opts.documentDelimiter ctx hdt
          refine ⟨out, ?_⟩
          simp only [encodeArray]
          rw [if_neg hp, hdt]
          exact ho
    · intro opts items rowDepth hN
      rcases items with _ | ⟨item, rest⟩
      · exact ⟨[], by simp [generalListItems]⟩
      · simp only [List.cons.sizeOf_spec] at hN
        obtain ⟨more, hmore⟩ := (ih (4 * sizeOf rest) (by omega)).2.2.2.2.1
          opts rest rowDepth le_rfl
        refine exists_ok_of_ne_error _ (fun e hE => ?_)
        unfold generalListItems at hE
        rcases item with _ | b | n | s | inner | entries
        · obtain ⟨r, hr⟩ := stringifyPrimitive_ok opts Value.null
            (some opts.documentDelimiter) rfl
          simp only [Bind.bind, Except.bind, hr, hmore] at hE
          exact Except.noConfusion hE
        · obtain ⟨r, hr⟩ := stringifyPrimitive_ok opts (Value.bool b)
            (some opts.documentDelimiter) rfl
          simp only [Bind.bind, Except.bind, hr, hmore] at hE
          exact Except.noConfusion hE
        · obtain ⟨r, hr⟩ := stringifyPrimitive_ok opts (Value.num n)
            (some opts.documentDelimiter) rfl
          simp only [Bind.bind, Except.bind, hr, hmore] at hE
          exact Except.noConfusion hE
        · obtain ⟨r, hr⟩ := stringifyPrimitive_ok opts (Value.str s)
            (some opts.documentDelimiter) rfl
          simp only [Bind.bind, Except.bind, hr, hmore] at hE
          exact Except.noConfusion hE
        · simp only [Value.arr.sizeOf_spec] at hN
          obtain ⟨out, ho⟩ := (ih (4 * sizeOf inner + 2) (by omega)).2.2.2.1
            opts none inner (ArrayContext.listFirstField (rowDepth - 1)) le_rfl
          simp only [Bind.bind, Except.bind, ho, hmore] at hE
          exact Except.noConfusion hE
        · simp only [Value.obj.sizeOf_spec] at hN
          obtain ⟨out, ho⟩ := (ih (4 * sizeOf entries + 3) (by omega)).2.2.2.2.2.1
            opts entries rowDepth le_rfl
          simp only [Bind.bind, Except.bind, ho, hmore] at hE
          exact Except.noConfusion hE
    · intro opts entries depth hN
      rcases entries with _ | ⟨⟨fk, fv⟩, rest⟩
      · exact ⟨[indentChars opts depth ++ ['-']], by simp [encodeObjectListItem]⟩
      · simp only [List.cons.sizeOf_spec, Prod.mk.sizeOf_spec] at hN
        obtain ⟨first, hfirst⟩ := (ih (4 * sizeOf fv + 2) (by omega)).2.2.2.2.2.2
          opts ((fk, fv) :: rest) fk fv depth le_rfl
        obtain ⟨more, hmore⟩ := (ih (4 * sizeOf rest) (by omega)).1
          opts ((fk, fv) :: rest) rest (depth + 1) le_rfl
        refine ⟨first ++ more, ?_⟩
        simp only [encodeObjectListItem, Bind.bind, Except.bind]
        rw [hfirst]
        dsimp only
        rw [hmore]
    · intro opts siblings firstKey firstValue depth hN
      have hle := foldKey_value_sizeOf_le opts firstKey firstValue siblings
      refine exists_ok_of_ne_error _ (fun e hE => ?_)
      simp only [encodeListFirstPair] at hE
      split at hE
      next fkey obj2 heq =>
        rw [heq] at hle
        simp only [Value.obj.sizeOf_spec] at hle
        split at hE
        · exact Except.noConfusion hE
        · obtain ⟨inner, hinner⟩ := (ih (4 * sizeOf obj2) (by omega)).1
            opts obj2 obj2 (depth + 2) le_rfl
          rw [hinner] at hE
          exact Except.noConfusion hE
      next fkey items2 heq =>
        rw [heq] at hle
        simp only [Value.arr.sizeOf_spec] at hle
        obtain ⟨out, ho⟩ := (ih (4 * sizeOf items2 + 2) (by omega)).2.2.2.1
          opts (some fkey) items2 (ArrayContext.listFirstField (depth - 1)) le_rfl
        rw [ho] at hE
        exact Except.noConfusion hE
      next fkey prim hno hna heq =>
        have hp : prim.isPrimitive = true := by
          rcases prim with _ | _ | _ | _ | items2 | obj2
          · rfl
          · rfl
          · rfl
          · rfl
          · exact (hna items2 rfl).elim
          · exact (hno obj2 rfl).elim
        obtain ⟨r, hr⟩ := stringifyPrimitive_ok opts prim
          (some opts.documentDelimiter) hp
        simp only [Bind.bind, Except.bind, hr] at hE
        exact Except.noConfusion hE

/-- `C6` — on every tree value and options, `encode_value` returns `Ok`:
none of the encoder's internal error branches (non-object tabular row,
missing tabular field, non-array inner item, non-primitive where a
primitive is expected) is reachable from a tree value. -/
theorem c6_encoder_never_errors (v : Value) (opts : EncoderOptions) :
    ∃ out, encodeValue v opts = .ok out := by
  have hroot : ∃ ls, encodeRoot opts v = .ok ls := by
    rcases v with _ | b | n | s | items | entries
    · obtain ⟨r, hr⟩ := stringifyPrimitive_ok opts Value.null
        (some opts.documentDelimiter) rfl
      refine exists_ok_of_ne_error _ (fun e hE => ?_)
      simp only [encodeRoot, Bind.bind, Except.bind, hr] at hE
      exact Except.noConfusion hE
    · obtain ⟨r, hr⟩ := stringifyPrimitive_ok opts (Value.bool b)
        (some opts.documentDelimiter) rfl
      refine exists_ok_of_ne_error _ (fun e hE => ?_)
      simp only [encodeRoot, Bind.bind, Except.bind, hr] at hE
      exact Except.noConfusion hE
    · obtain ⟨r, hr⟩ := stringifyPrimitive_ok opts (Value.num n)
        (some opts.documentDelimiter) rfl
      refine exists_ok_of_ne_error _ (fun e hE => ?_)
      simp only [encodeRoot, Bind.bind, Except.bind, hr] at hE
      exact Except.noConfusion hE
    · obtain ⟨r, hr⟩ := stringifyPrimitive_ok opts (Value.str s)
        (some opts.documentDelimiter) rfl
      refine exists_ok_of_ne_error _ (fun e hE => ?_)
      simp only [encodeRoot, Bind.bind, Except.bind, hr] at hE
      exact Except.noConfusion hE
    · obtain ⟨out, ho⟩ := (encoderTotalAux (4 * sizeOf items + 2)).2.2.2.1
        opts none items (ArrayContext.normal 0) le_rfl
      exact ⟨out, by simp only [encodeRoot]; exact ho⟩
    · by_cases he : entries.isEmpty = true
      · exact ⟨[], by simp only [encodeRoot, if_pos he]⟩
      · obtain ⟨out, ho⟩ := (encoderTotalAux (4 * sizeOf entries)).1
          opts entries entries 0 le_rfl
        exact ⟨out, by simp only [encodeRoot, if_neg he]; exact ho⟩
  obtain ⟨ls, hls⟩ := hroot
  refine exists_ok_of_ne_error _ (fun e hE => ?_)
  simp only [encodeValue, Bind.bind, Except.bind, hls] at hE
  exact Except.noConfusion hE
